import Mathlib

/-!
Verification of the DI.fm playlist generator (`split-pls.py`).

The development shallowly embeds the program's three components:

* `PlaylistBuilder` — the PLS playlist builder.  Its mutable state is the
  pair of a running entry counter (`chanCount`) and the ordered option map
  of the single `[playlist]` INI section (`ini`, an association list that
  preserves insertion order and updates keys in place, exactly like the
  ordered dictionary inside `configparser.ConfigParser`).
* `enumChannels` — the generator that scans `<option>` elements and yields
  `(key, text)` channel pairs, with the stderr diagnostics and the
  possibility of an uncaught `AttributeError` modelled explicitly.
* `resolveServers` — the portion of `parseCliArgs` that resolves the
  effective server list from the `-s`, `-m` and `-f` arguments, including
  Python truthiness and Python slice semantics.

Strings are Lean `String`s; the decimal rendering of the entry counter is
embedded as `natRepr` (the same digit sequence Python's `str`/f-string
formatting produces for a non-negative int).  `configparser`'s serializer
escapes newlines inside values as `"\n\t"`; this is `escNl`.
-/

namespace SplitPls

/-- Decimal digits of `n`, most significant first, accumulated onto `acc`.
Mirrors the structure of run-of-the-mill fuelled decimal printing; called
with fuel `n + 1`, which is always sufficient. -/
def natReprCore : Nat → Nat → List Char → List Char
  | 0, _, acc => acc
  | fuel + 1, n, acc =>
    let d := Nat.digitChar (n % 10)
    let n2 := n / 10
    if n2 = 0 then d :: acc else natReprCore fuel n2 (d :: acc)

/-- Decimal rendering of a natural number, as produced by Python's `str` /
f-string formatting of a non-negative `int` (no sign, no padding). -/
def natRepr (n : Nat) : String :=
  String.mk (natReprCore (n + 1) n [])

/-- The ten decimal digit characters. -/
def digitChars : List Char := ['0', '1', '2', '3', '4', '5', '6', '7', '8', '9']

/-- Canonical decimal character sequence of a natural number, defined
through `Nat.digits` (most significant digit first). -/
def decChars (n : Nat) : List Char :=
  if n = 0 then ['0'] else ((Nat.digits 10 n).map Nat.digitChar).reverse

/-- `configparser`'s value escaping on write: every newline character in a
value is written as a newline followed by a tab
(`str(value).replace('\n', '\n\t')`). -/
def escNl (s : String) : String :=
  String.mk (s.data.flatMap fun c => if c = '\n' then ['\n', '\t'] else [c])

/-- Ordered-dictionary update, as done by `ConfigParser.set` on a section:
if the key is already present its value is replaced in place (the key keeps
its position), otherwise the pair is appended at the end. -/
def iniSet (ini : List (String × String)) (key val : String) :
    List (String × String) :=
  if ini.any (fun kv => kv.1 = key) then
    ini.map (fun kv => if kv.1 = key then (kv.1, val) else kv)
  else ini ++ [(key, val)]

/-- The stream URL built by `PlaylistBuilder.append` for one host:
`f'http://{host}.di.fm:80/{chanKey}{self.quality}?{self.apiKey}'`. -/
def chanUrl (apiKey quality host chanKey : String) : String :=
  "http://" ++ host ++ ".di.fm:80/" ++ chanKey ++ quality ++ "?" ++ apiKey

/-- The `File<i>` key (`f'File{self.chanCount}'`). -/
def fileKey (i : Nat) : String := "File" ++ natRepr i

/-- The `Title<i>` key (`f'Title{self.chanCount}'`). -/
def titleKey (i : Nat) : String := "Title" ++ natRepr i

/-- The `Length<i>` key (`f'Length{self.chanCount}'`). -/
def lengthKey (i : Nat) : String := "Length" ++ natRepr i

/-- State of a `PlaylistBuilder` instance: the three construction-time
parameters plus the mutable channel counter and the ordered option map of
the `[playlist]` section. -/
structure PlaylistBuilder where
  apiKey : String
  servers : List String
  quality : String
  chanCount : Nat
  ini : List (String × String)
deriving DecidableEq

/-- `zero_list`: reset the channel counter to 0 and replace the INI
structure with a fresh one holding the empty `playlist` section. -/
def PlaylistBuilder.zero_list (b : PlaylistBuilder) : PlaylistBuilder :=
  { b with chanCount := 0, ini := [] }

/-- `__init__(apiKey, servers, quality)`: store the three parameters and
prepare a zeroed-out playlist. -/
def PlaylistBuilder.init (apiKey : String) (servers : List String)
    (quality : String) : PlaylistBuilder :=
  PlaylistBuilder.zero_list
    { apiKey := apiKey, servers := servers, quality := quality,
      chanCount := 0, ini := [] }

/-- One iteration of the `for host in self.servers` loop in `append`:
increment the counter, then set the `File`, `Title` and `Length` options
for the new index. -/
def PlaylistBuilder.appendHost (chanKey chanText : String)
    (b : PlaylistBuilder) (host : String) : PlaylistBuilder :=
  let c := b.chanCount + 1
  { b with
    chanCount := c,
    ini :=
      iniSet
        (iniSet
          (iniSet b.ini (fileKey c) (chanUrl b.apiKey b.quality host chanKey))
          (titleKey c) chanText)
        (lengthKey c) "-1" }

/-- `append(chanKey, chanText)`: add a channel entry for each requested
server, in server-list order. -/
def PlaylistBuilder.append (b : PlaylistBuilder) (chanKey chanText : String) :
    PlaylistBuilder :=
  b.servers.foldl (PlaylistBuilder.appendHost chanKey chanText) b

/-- Concatenation of a list of strings. -/
def concatStrs : List String → String
  | [] => ""
  | s :: rest => s ++ concatStrs rest

/-- One serialized option line: `key=value` with no spacing around the
delimiter (`space_around_delimiters=False`), values newline-escaped. -/
def lineOf (kv : String × String) : String :=
  kv.1 ++ "=" ++ escNl kv.2 ++ "\n"

/-- `ConfigParser.write` for the single `playlist` section: the section
header line, one `key=value` line per stored option in order, and the
trailing blank line every section is followed by. -/
def serializeIni (ini : List (String × String)) : String :=
  "[playlist]\n" ++ concatStrs (ini.map lineOf) ++ "\n"

/-- `write(out)`: set the `NumberOfEntries` and `Version` footer options on
the stored INI structure (mutating the builder), then serialize.  Returns
the mutated builder state together with the text written to the file. -/
def PlaylistBuilder.write (b : PlaylistBuilder) : PlaylistBuilder × String :=
  let b2 :=
    { b with
      ini := iniSet (iniSet b.ini "NumberOfEntries" (natRepr b.chanCount))
          "Version" "2" }
  (b2, serializeIni b2.ini)

/-- A call against the builder's public interface. -/
inductive BOp where
  | app (chanKey chanText : String)
  | reset
  | write
deriving DecidableEq

/-- Apply one builder call to a state. -/
def applyOp (b : PlaylistBuilder) : BOp → PlaylistBuilder
  | .app k t => b.append k t
  | .reset => b.zero_list
  | .write => (PlaylistBuilder.write b).1

/-- Run a sequence of builder calls from a given state. -/
def runOps (b : PlaylistBuilder) (ops : List BOp) : PlaylistBuilder :=
  ops.foldl applyOp b

/-- The channel pairs appended since the last reset, starting from an
accumulated list: an `app` records its pair, a `reset` discards everything
accumulated so far. -/
def opsAppends (pairs : List (String × String)) (ops : List BOp) :
    List (String × String) :=
  ops.foldl
    (fun acc op =>
      match op with
      | .app k t => acc ++ [(k, t)]
      | .reset => []
      | .write => acc)
    pairs

/-- The channel pairs appended since the last reset in a call sequence. -/
def tailAppends (ops : List BOp) : List (String × String) :=
  opsAppends [] ops

/-- The builder obtained from a fresh instance by appending each channel
pair in order (no resets, no intermediate writes). -/
def buildFromList (apiKey : String) (servers : List String) (quality : String)
    (pairs : List (String × String)) : PlaylistBuilder :=
  pairs.foldl (fun b p => b.append p.1 p.2)
    (PlaylistBuilder.init apiKey servers quality)

/-- The `File`/`Title`/`Length` option triples recorded by one `append`
call: one triple per host, indices continuing from running count `c`. -/
def entryBlock (apiKey quality chanKey chanText : String) (c : Nat) :
    List String → List (String × String)
  | [] => []
  | host :: hosts =>
    (fileKey (c + 1), chanUrl apiKey quality host chanKey)
      :: (titleKey (c + 1), chanText)
      :: (lengthKey (c + 1), "-1")
      :: entryBlock apiKey quality chanKey chanText (c + 1) hosts

/-- The option triples recorded by appending a list of channel pairs in
order, indices continuing from running count `c`. -/
def channelEntries (apiKey quality : String) (servers : List String)
    (c : Nat) : List (String × String) → List (String × String)
  | [] => []
  | (k, t) :: rest =>
    entryBlock apiKey quality k t c servers
      ++ channelEntries apiKey quality servers (c + servers.length) rest

/-- The list `[c+1, c+2, ..., c+n]`. -/
def idxFrom (c : Nat) : Nat → List Nat
  | 0 => []
  | n + 1 => (c + 1) :: idxFrom (c + 1) n

/-- Remove a leading character sequence: `dropPre p l` is `some rest` when
`l = p ++ rest`, and `none` when `p` is not a leading sequence of `l`. -/
def dropPre : List Char → List Char → Option (List Char)
  | [], l => some l
  | _ :: _, [] => none
  | p :: ps, c :: cs => if c = p then dropPre ps cs else none

/-- The index digit strings of the `File<i>` options of a section, in
stored order. -/
def fileIdxData (ini : List (String × String)) : List (List Char) :=
  ini.filterMap fun kv => dropPre ("File".data) kv.1.data

/-- The index digit strings of the `Title<i>` options of a section, in
stored order. -/
def titleIdxData (ini : List (String × String)) : List (List Char) :=
  ini.filterMap fun kv => dropPre ("Title".data) kv.1.data

/-- The index digit strings of the `Length<i>` options of a section, in
stored order. -/
def lengthIdxData (ini : List (String × String)) : List (List Char) :=
  ini.filterMap fun kv => dropPre ("Length".data) kv.1.data

/-- The index digit string of an entry option (`File`, `Title` or
`Length`), `none` for any other key. -/
def entrySel (kv : String × String) : Option (List Char) :=
  (dropPre ("File".data) kv.1.data).orElse fun _ =>
    (dropPre ("Title".data) kv.1.data).orElse fun _ =>
      dropPre ("Length".data) kv.1.data

/-- The index digit strings of all entry lines (`File`, `Title` or
`Length`), in stored order. -/
def entryIdxData (ini : List (String × String)) : List (List Char) :=
  ini.filterMap entrySel

/-- First value stored under a key, if any. -/
def lookupVal : List (String × String) → String → Option String
  | [], _ => none
  | kv :: rest, k => if kv.1 = k then some kv.2 else lookupVal rest k

/-- Split a character sequence into lines at each newline character (the
text after the final newline is the last line, possibly empty). -/
def linesOf : List Char → List (List Char)
  | [] => [[]]
  | c :: cs =>
    if c = '\n' then [] :: linesOf cs
    else
      match linesOf cs with
      | [] => [[c]]
      | l :: ls => (c :: l) :: ls

/-- Split a line at its first `=`: `some (key, value)` when the line
contains an `=`, `none` otherwise. -/
def splitEq : List Char → Option (List Char × List Char)
  | [] => none
  | c :: cs =>
    if c = '=' then some ([], cs)
    else (splitEq cs).map fun p => (c :: p.1, p.2)

/-- Read one text line as a generic `key=value` pair. -/
def lineKV (l : List Char) : Option (String × String) :=
  (splitEq l).map fun p => (String.mk p.1, String.mk p.2)

/-- Generic `key=value` reading of PLS text: split into lines, keep every
line containing an `=` as the pair of the text before the first `=` and
the text after it. -/
def parsePLS (s : String) : List (String × String) :=
  (linesOf s.data).filterMap lineKV

/-- The string contains no newline character. -/
abbrev noNl (s : String) : Prop := '\n' ∉ s.data

/-- An `<option>` element as seen by `enumChannels`: its attribute list in
document order and its text content (`none` when the element has no text
node, in which case `option.text` is Python's `None`). -/
structure OptionElem where
  attrs : List (String × String)
  text : Option String
deriving DecidableEq

/-- Python `element.get(name)`: the value of the attribute, or `None`. -/
def getAttr : List (String × String) → String → Option String
  | [], _ => none
  | kv :: rest, n => if kv.1 = n then some kv.2 else getAttr rest n

/-- Join strings with a separator (`sep.join(...)`). -/
def joinSep (sep : String) : List String → String
  | [] => ""
  | [s] => s
  | s :: rest => s ++ sep ++ joinSep sep rest

/-- The attribute listing inside the bad-tag diagnostic:
`', '.join(f"{k}='{v}'" for k, v in option.items())`. -/
def attrsMsg (attrs : List (String × String)) : String :=
  joinSep ", " (attrs.map fun kv => kv.1 ++ "=\x27" ++ kv.2 ++ "\x27")

/-- The diagnostic printed to stderr for an `<option>` with no `value`
attribute. -/
def badTagMsg (attrs : List (String × String)) : String :=
  "Ignoring bad <option> tag, with attrs: " ++ attrsMsg attrs

/-- Python `str.strip()`: remove whitespace from both ends. -/
def pyStrip (s : String) : String :=
  String.mk
    (((s.data.dropWhile Char.isWhitespace).reverse.dropWhile
        Char.isWhitespace).reverse)

/-- Outcome of driving the `enumChannels` generator to exhaustion: the
stderr diagnostics emitted, the `(key, text)` pairs yielded, and the
uncaught exception that stopped the iteration, if any.  Pairs yielded
before a crash are kept, as a Python generator yields lazily. -/
structure EnumResult where
  errs : List String
  pairs : List (String × String)
  crash : Option String
deriving DecidableEq

/-- `enumChannels(xmlRoot, verbose=True)` over the `<option>` elements in
document order.  For each element the code evaluates
`option.get('value')` and `option.text.strip()` first — so an element
whose text is `None` raises `AttributeError` and aborts the iteration —
then skips empty `value` silently, reports and skips a missing `value`
attribute (diagnostic only when `verbose`), and otherwise yields
`(value, stripped text)`. -/
def enumChannels (verbose : Bool) : List OptionElem → EnumResult
  | [] => { errs := [], pairs := [], crash := none }
  | o :: rest =>
    match o.text with
    | none =>
      { errs := [], pairs := [],
        crash :=
          some "AttributeError: \x27NoneType\x27 object has no attribute \x27strip\x27" }
    | some txt =>
      let chanKey := getAttr o.attrs "value"
      let chanText := pyStrip txt
      if chanKey = some "" then enumChannels verbose rest
      else
        match chanKey with
        | none =>
          let r := enumChannels verbose rest
          { errs := (if verbose then [badTagMsg o.attrs] else []) ++ r.errs,
            pairs := r.pairs, crash := r.crash }
        | some k =>
          let r := enumChannels verbose rest
          { errs := r.errs, pairs := (k, chanText) :: r.pairs,
            crash := r.crash }

/-- Modelled from the spec (claim C4 as amended): the channel enumeration
contract — for each selectable option in document order, a missing `value`
attribute produces one diagnostic listing all attributes and is skipped, an
empty `value` is skipped silently, and otherwise the pair
`(value, trimmed text)` is yielded; enumeration never aborts. -/
def specChannelScan : List OptionElem → List String × List (String × String)
  | [] => ([], [])
  | o :: rest =>
    let r := specChannelScan rest
    match getAttr o.attrs "value" with
    | none => (badTagMsg o.attrs :: r.1, r.2)
    | some v =>
      if v = "" then r
      else (r.1, (v, pyStrip ((o.text).getD "")) :: r.2)

/-- Python truthiness of `args.servers` (`None` and `[]` are falsy). -/
def serversTruthy : Option (List String) → Bool
  | none => false
  | some l => !l.isEmpty

/-- Python truthiness of `args.max` (`None` and `0` are falsy). -/
def maxTruthy : Option Int → Bool
  | none => false
  | some m => m != 0

/-- Python truthiness of `args.file` (`None` and `''` are falsy). -/
def fileTruthy : Option String → Bool
  | none => false
  | some s => s != ""

/-- Python slice `l[0:stop]` for an `int` stop: a negative stop counts from
the end; the result is clamped to the available elements. -/
def pySliceTo (l : List String) (stop : Int) : List String :=
  let s : Int := if stop < 0 then (l.length : Int) + stop else stop
  l.take s.toNat

/-- The server-list resolution of `parseCliArgs`:
`if not args.servers: args.servers = ['prem1', 'prem4']`, then
`if not args.max: args.max = 1 if args.file else len(args.servers)`, then
`args.servers = args.servers[0:args.max]`. -/
def resolveServers (serversArg : Option (List String)) (maxArg : Option Int)
    (fileArg : Option String) : List String :=
  let servers :=
    if serversTruthy serversArg then serversArg.getD []
    else ["prem1", "prem4"]
  let maxV : Int :=
    if maxTruthy maxArg then maxArg.getD 0
    else if fileTruthy fileArg then 1 else (servers.length : Int)
  pySliceTo servers maxV

/-- Modelled from the spec: the configured server list after default
substitution (the two default mirrors when no list, or an empty one, was
given). -/
def specResolvedServers (serversArg : Option (List String)) : List String :=
  match serversArg with
  | none => ["prem1", "prem4"]
  | some l => if l.isEmpty then ["prem1", "prem4"] else l

/-- Modelled from the spec: the effective server list when no positive cap
was given — 1 server in single-file mode, the full resolved list in
per-channel mode. -/
def specDefaultCap (serversArg : Option (List String))
    (fileArg : Option String) : List String :=
  if fileTruthy fileArg then (specResolvedServers serversArg).take 1
  else specResolvedServers serversArg

/-- Modelled from the spec (claim C6 as amended): the effective server list
is the resolved (post-default-substitution) list truncated to at most `max`
entries when `max` is a positive integer; when `max` is unset or `0`
(falsy) the cap defaults to 1 in single-file mode and to the full resolved
list length in per-channel mode; a negative `max` drops the last `|max|`
entries of the resolved list (Python slice semantics). -/
def specEffectiveServers (serversArg : Option (List String))
    (maxArg : Option Int) (fileArg : Option String) : List String :=
  match maxArg with
  | none => specDefaultCap serversArg fileArg
  | some m =>
    if m = 0 then specDefaultCap serversArg fileArg
    else if 0 < m then (specResolvedServers serversArg).take m.toNat
    else
      (specResolvedServers serversArg).take
        ((specResolvedServers serversArg).length - m.natAbs)

/-- A key the builder may legitimately hold at running count `c`: an entry
key with a 1-based index no greater than `c`. -/
def entryKey (c : Nat) (k : String) : Prop :=
  ∃ i, 1 ≤ i ∧ i ≤ c ∧ (k = fileKey i ∨ k = titleKey i ∨ k = lengthKey i)

/-- A key the section may hold at running count `c`: an in-range entry key
or one of the two footer keys. -/
def goodKey (c : Nat) (k : String) : Prop :=
  entryKey c k ∨ k = "NumberOfEntries" ∨ k = "Version"

/-- Every key stored in the section is an in-range entry key or one of the
two footer keys. -/
def goodIni (c : Nat) (ini : List (String × String)) : Prop :=
  ∀ kv ∈ ini, goodKey c kv.1

/-! ## String and decimal-representation groundwork -/

theorem sdata_append (a b : String) : (a ++ b).data = a.data ++ b.data := rfl

theorem sext {a b : String} (h : a.data = b.data) : a = b := by
  cases a with
  | mk d1 =>
    cases b with
    | mk d2 => exact congrArg String.mk h

theorem sapp_assoc (a b c : String) : a ++ b ++ c = a ++ (b ++ c) := by
  apply sext
  simp [sdata_append]

theorem sapp_cancel_left {p a b : String} (h : p ++ a = p ++ b) : a = b := by
  apply sext
  have hd := congrArg String.data h
  rw [sdata_append, sdata_append] at hd
  exact List.append_cancel_left hd

theorem digitChar_inj_lt {a b : Nat} (ha : a < 10) (hb : b < 10)
    (h : Nat.digitChar a = Nat.digitChar b) : a = b := by
  interval_cases a <;> interval_cases b <;> first | rfl | exact absurd h (by decide)

theorem digitChar_mem_of_lt {d : Nat} (hd : d < 10) :
    Nat.digitChar d ∈ digitChars := by
  interval_cases d <;> decide

theorem natReprCore_eq :
    ∀ (fuel n : Nat) (acc : List Char), n < fuel →
      natReprCore fuel n acc = decChars n ++ acc := by
  intro fuel
  induction fuel with
  | zero => intro n acc h; exact absurd h (Nat.not_lt_zero n)
  | succ f ih =>
    intro n acc h
    by_cases h0 : n / 10 = 0
    · have hstep : natReprCore (f + 1) n acc = Nat.digitChar (n % 10) :: acc := by
        simp [natReprCore, h0]
      rw [hstep]
      by_cases hn : n = 0
      · subst hn
        have h00 : decChars 0 = ['0'] := by decide
        rw [h00]
        rfl
      · have hd : Nat.digits 10 n = [n % 10] := by
          rw [Nat.digits_def' (by norm_num) (Nat.pos_of_ne_zero hn), h0,
            Nat.digits_zero]
        simp [decChars, hn, hd]
    · have hn : n ≠ 0 := by
        intro e
        rw [e] at h0
        simp at h0
      have hlt : n / 10 < f :=
        lt_of_lt_of_le (Nat.div_lt_self (Nat.pos_of_ne_zero hn) (by norm_num))
          (Nat.lt_succ_iff.mp h)
      have hstep : natReprCore (f + 1) n acc
          = natReprCore f (n / 10) (Nat.digitChar (n % 10) :: acc) := by
        simp [natReprCore, h0]
      rw [hstep, ih _ _ hlt]
      have hd : Nat.digits 10 n = n % 10 :: Nat.digits 10 (n / 10) :=
        Nat.digits_def' (by norm_num) (Nat.pos_of_ne_zero hn)
      simp [decChars, hn, hd, h0, List.reverse_cons, List.append_assoc]

theorem natRepr_data (n : Nat) : (natRepr n).data = decChars n := by
  show (String.mk (natReprCore (n + 1) n [])).data = decChars n
  rw [natReprCore_eq (n + 1) n [] (Nat.lt_succ_self n)]
  simp

theorem mapDigitChar_inj :
    ∀ (l1 l2 : List Nat), (∀ x ∈ l1, x < 10) → (∀ x ∈ l2, x < 10) →
      l1.map Nat.digitChar = l2.map Nat.digitChar → l1 = l2 := by
  intro l1
  induction l1 with
  | nil => intro l2 _ _ h; cases l2 <;> simp_all
  | cons a l ih =>
    intro l2 h1 h2 h
    cases l2 with
    | nil => simp_all
    | cons b l' =>
      simp only [List.map_cons, List.cons.injEq] at h
      have hab : a = b :=
        digitChar_inj_lt (h1 a (by simp)) (h2 b (by simp)) h.1
      have : l = l' :=
        ih l' (fun x hx => h1 x (by simp [hx])) (fun x hx => h2 x (by simp [hx])) h.2
      simp [hab, this]

theorem decChars_eq_zero {n : Nat} (h : decChars n = ['0']) : n = 0 := by
  by_cases hn : n = 0
  · exact hn
  · exfalso
    rw [decChars, if_neg hn] at h
    have h' : (Nat.digits 10 n).map Nat.digitChar = ['0'] := by
      have := congrArg List.reverse h
      simpa using this
    cases hE : Nat.digits 10 n with
    | nil => rw [hE] at h'; simp at h'
    | cons d rest =>
      rw [hE] at h'
      cases rest with
      | nil =>
        simp only [List.map_cons, List.map_nil, List.cons.injEq, and_true] at h'
        have hd10 : d < 10 :=
          Nat.digits_lt_base (by norm_num) (by rw [hE]; exact List.mem_cons_self d [])
        have hd0 : d = 0 := digitChar_inj_lt hd10 (by norm_num) h'
        have := Nat.ofDigits_digits 10 n
        rw [hE, hd0] at this
        simp [Nat.ofDigits] at this
        exact hn this.symm
      | cons d2 rest2 => simp at h'

theorem decChars_inj {m n : Nat} (h : decChars m = decChars n) : m = n := by
  by_cases hm : m = 0 <;> by_cases hn : n = 0
  · simp [hm, hn]
  · exfalso
    rw [hm] at h
    have h0 : decChars 0 = ['0'] := by simp [decChars]
    exact hn (decChars_eq_zero (h0 ▸ h.symm))
  · exfalso
    rw [hn] at h
    have h0 : decChars 0 = ['0'] := by simp [decChars]
    exact hm (decChars_eq_zero (h0 ▸ h))
  · rw [decChars, decChars, if_neg hm, if_neg hn] at h
    have h' := congrArg List.reverse h
    simp only [List.reverse_reverse] at h'
    have hdig :=
      mapDigitChar_inj (Nat.digits 10 m) (Nat.digits 10 n)
        (fun x hx => Nat.digits_lt_base (by norm_num) hx)
        (fun x hx => Nat.digits_lt_base (by norm_num) hx) h'
    have := congrArg (Nat.ofDigits 10) hdig
    rw [Nat.ofDigits_digits, Nat.ofDigits_digits] at this
    exact_mod_cast this

theorem natRepr_inj {m n : Nat} (h : natRepr m = natRepr n) : m = n := by
  apply decChars_inj
  rw [← natRepr_data, ← natRepr_data, h]

theorem natRepr_chars {n : Nat} {c : Char} (hc : c ∈ (natRepr n).data) :
    c ∈ digitChars := by
  rw [natRepr_data] at hc
  rw [decChars] at hc
  by_cases hn : n = 0
  · rw [if_pos hn] at hc
    simp at hc
    simp [hc, digitChars]
  · rw [if_neg hn] at hc
    rw [List.mem_reverse] at hc
    rcases List.mem_map.mp hc with ⟨d, hd, he⟩
    have : d < 10 := Nat.digits_lt_base (by norm_num) hd
    rw [← he]
    exact digitChar_mem_of_lt this

theorem natRepr_no_nl {n : Nat} : '\n' ∉ (natRepr n).data := by
  intro h
  have := natRepr_chars h
  exact absurd this (by decide)

theorem natRepr_no_eqch {n : Nat} : '=' ∉ (natRepr n).data := by
  intro h
  have := natRepr_chars h
  exact absurd this (by decide)

/-! ## Key distinctness -/

theorem append_ne_of_heads (a b : Char) (r1 r2 : List Char)
    (p1 p2 s1 s2 : String) (h1 : p1.data = a :: r1) (h2 : p2.data = b :: r2)
    (hc : a ≠ b) : p1 ++ s1 ≠ p2 ++ s2 := by
  intro h
  have hd := congrArg String.data h
  rw [sdata_append, sdata_append, h1, h2] at hd
  simp only [List.cons_append, List.cons.injEq] at hd
  exact hc hd.1

theorem lit_ne_append_of_heads (a b : Char) (r1 r2 : List Char)
    (k p s : String) (h1 : k.data = a :: r1) (h2 : p.data = b :: r2)
    (hc : a ≠ b) : k ≠ p ++ s := by
  intro h
  have hd := congrArg String.data h
  rw [sdata_append, h1, h2] at hd
  simp only [List.cons_append, List.cons.injEq] at hd
  exact hc hd.1

theorem fileKey_inj {i j : Nat} (h : fileKey i = fileKey j) : i = j :=
  natRepr_inj (sapp_cancel_left h)

theorem titleKey_inj {i j : Nat} (h : titleKey i = titleKey j) : i = j :=
  natRepr_inj (sapp_cancel_left h)

theorem lengthKey_inj {i j : Nat} (h : lengthKey i = lengthKey j) : i = j :=
  natRepr_inj (sapp_cancel_left h)

theorem titleKey_ne_fileKey (i j : Nat) : titleKey i ≠ fileKey j :=
  append_ne_of_heads 'T' 'F' _ _ _ _ _ _ rfl rfl (by decide)

theorem lengthKey_ne_fileKey (i j : Nat) : lengthKey i ≠ fileKey j :=
  append_ne_of_heads 'L' 'F' _ _ _ _ _ _ rfl rfl (by decide)

theorem fileKey_ne_titleKey (i j : Nat) : fileKey i ≠ titleKey j :=
  append_ne_of_heads 'F' 'T' _ _ _ _ _ _ rfl rfl (by decide)

theorem lengthKey_ne_titleKey (i j : Nat) : lengthKey i ≠ titleKey j :=
  append_ne_of_heads 'L' 'T' _ _ _ _ _ _ rfl rfl (by decide)

theorem fileKey_ne_lengthKey (i j : Nat) : fileKey i ≠ lengthKey j :=
  append_ne_of_heads 'F' 'L' _ _ _ _ _ _ rfl rfl (by decide)

theorem titleKey_ne_lengthKey (i j : Nat) : titleKey i ≠ lengthKey j :=
  append_ne_of_heads 'T' 'L' _ _ _ _ _ _ rfl rfl (by decide)

theorem numKey_ne_fileKey (i : Nat) : "NumberOfEntries" ≠ fileKey i :=
  lit_ne_append_of_heads 'N' 'F' _ _ _ _ _ rfl rfl (by decide)

theorem numKey_ne_titleKey (i : Nat) : "NumberOfEntries" ≠ titleKey i :=
  lit_ne_append_of_heads 'N' 'T' _ _ _ _ _ rfl rfl (by decide)

theorem numKey_ne_lengthKey (i : Nat) : "NumberOfEntries" ≠ lengthKey i :=
  lit_ne_append_of_heads 'N' 'L' _ _ _ _ _ rfl rfl (by decide)

theorem verKey_ne_fileKey (i : Nat) : "Version" ≠ fileKey i :=
  lit_ne_append_of_heads 'V' 'F' _ _ _ _ _ rfl rfl (by decide)

theorem verKey_ne_titleKey (i : Nat) : "Version" ≠ titleKey i :=
  lit_ne_append_of_heads 'V' 'T' _ _ _ _ _ rfl rfl (by decide)

theorem verKey_ne_lengthKey (i : Nat) : "Version" ≠ lengthKey i :=
  lit_ne_append_of_heads 'V' 'L' _ _ _ _ _ rfl rfl (by decide)

theorem entryKey_ne_fileKey {c i : Nat} {k : String} (hk : entryKey c k)
    (hi : c < i) : k ≠ fileKey i := by
  rcases hk with ⟨j, _, hjc, h | h | h⟩
  · subst h
    intro he
    have := fileKey_inj he
    omega
  · subst h
    exact titleKey_ne_fileKey j i
  · subst h
    exact lengthKey_ne_fileKey j i

theorem entryKey_ne_titleKey {c i : Nat} {k : String} (hk : entryKey c k)
    (hi : c < i) : k ≠ titleKey i := by
  rcases hk with ⟨j, _, hjc, h | h | h⟩
  · subst h
    exact fileKey_ne_titleKey j i
  · subst h
    intro he
    have := titleKey_inj he
    omega
  · subst h
    exact lengthKey_ne_titleKey j i

theorem entryKey_ne_lengthKey {c i : Nat} {k : String} (hk : entryKey c k)
    (hi : c < i) : k ≠ lengthKey i := by
  rcases hk with ⟨j, _, hjc, h | h | h⟩
  · subst h
    exact fileKey_ne_lengthKey j i
  · subst h
    exact titleKey_ne_lengthKey j i
  · subst h
    intro he
    have := lengthKey_inj he
    omega

theorem goodKey_ne_fileKey {c i : Nat} {k : String} (hk : goodKey c k)
    (hi : c < i) : k ≠ fileKey i := by
  rcases hk with h | h | h
  · exact entryKey_ne_fileKey h hi
  · subst h
    exact numKey_ne_fileKey i
  · subst h
    exact verKey_ne_fileKey i

theorem goodKey_ne_titleKey {c i : Nat} {k : String} (hk : goodKey c k)
    (hi : c < i) : k ≠ titleKey i := by
  rcases hk with h | h | h
  · exact entryKey_ne_titleKey h hi
  · subst h
    exact numKey_ne_titleKey i
  · subst h
    exact verKey_ne_titleKey i

theorem goodKey_ne_lengthKey {c i : Nat} {k : String} (hk : goodKey c k)
    (hi : c < i) : k ≠ lengthKey i := by
  rcases hk with h | h | h
  · exact entryKey_ne_lengthKey h hi
  · subst h
    exact numKey_ne_lengthKey i
  · subst h
    exact verKey_ne_lengthKey i

theorem entryKey_ne_numKey {c : Nat} {k : String} (hk : entryKey c k) :
    k ≠ "NumberOfEntries" := by
  rcases hk with ⟨j, _, _, h | h | h⟩ <;> subst h
  · exact fun he => numKey_ne_fileKey j he.symm
  · exact fun he => numKey_ne_titleKey j he.symm
  · exact fun he => numKey_ne_lengthKey j he.symm

theorem entryKey_ne_verKey {c : Nat} {k : String} (hk : entryKey c k) :
    k ≠ "Version" := by
  rcases hk with ⟨j, _, _, h | h | h⟩ <;> subst h
  · exact fun he => verKey_ne_fileKey j he.symm
  · exact fun he => verKey_ne_titleKey j he.symm
  · exact fun he => verKey_ne_lengthKey j he.symm

theorem entryKey_mono {c c' : Nat} {k : String} (h : entryKey c k)
    (hle : c ≤ c') : entryKey c' k := by
  rcases h with ⟨j, h1, h2, h3⟩
  exact ⟨j, h1, le_trans h2 hle, h3⟩

theorem goodKey_mono {c c' : Nat} {k : String} (h : goodKey c k)
    (hle : c ≤ c') : goodKey c' k := by
  rcases h with h | h
  · exact Or.inl (entryKey_mono h hle)
  · exact Or.inr h

/-! ## Ordered-dictionary update -/

theorem iniSet_notmem {ini : List (String × String)} {k : String} (v : String)
    (h : ∀ kv ∈ ini, kv.1 ≠ k) : iniSet ini k v = ini ++ [(k, v)] := by
  rw [iniSet, if_neg]
  simp only [List.any_eq_true, decide_eq_true_eq, not_exists, not_and]
  exact h

theorem map_upd_nochange {k : String} (v : String)
    {l : List (String × String)} (h : ∀ kv ∈ l, kv.1 ≠ k) :
    l.map (fun kv => if kv.1 = k then (kv.1, v) else kv) = l := by
  induction l with
  | nil => rfl
  | cons kv rest ih =>
    simp only [List.map_cons, if_neg (h kv (by simp)),
      ih (fun x hx => h x (by simp [hx]))]

theorem iniSet_update_mid (A B : List (String × String)) (k old v : String)
    (hA : ∀ kv ∈ A, kv.1 ≠ k) (hB : ∀ kv ∈ B, kv.1 ≠ k) :
    iniSet (A ++ (k, old) :: B) k v = A ++ (k, v) :: B := by
  rw [iniSet, if_pos]
  · rw [List.map_append, map_upd_nochange v hA, List.map_cons,
      map_upd_nochange v hB]
    simp
  · simp only [List.any_eq_true, decide_eq_true_eq]
    exact ⟨(k, old), by simp, rfl⟩

theorem iniSet_key_of_mem {ini : List (String × String)} {k v : String}
    {kv : String × String} (h : kv ∈ iniSet ini k v) :
    kv.1 = k ∨ ∃ kv2 ∈ ini, kv.1 = kv2.1 := by
  rw [iniSet] at h
  by_cases hc : (ini.any fun kv => kv.1 = k) = true
  · rw [if_pos hc] at h
    rcases List.mem_map.mp h with ⟨kv2, hkv2, he⟩
    by_cases h2 : kv2.1 = k
    · rw [if_pos h2] at he
      left
      rw [← he]
      exact h2
    · rw [if_neg h2] at he
      right
      exact ⟨kv2, hkv2, by rw [← he]⟩
  · rw [if_neg hc] at h
    rcases List.mem_append.mp h with h | h
    · right
      exact ⟨kv, h, rfl⟩
    · left
      simp at h
      simp [h]

/-! ## Characterization of append -/

theorem appendHost_eq (b : PlaylistBuilder) (chanKey chanText host : String)
    (hg : goodIni b.chanCount b.ini) :
    PlaylistBuilder.appendHost chanKey chanText b host
      = { b with
          chanCount := b.chanCount + 1,
          ini := b.ini
            ++ [(fileKey (b.chanCount + 1),
                  chanUrl b.apiKey b.quality host chanKey),
                (titleKey (b.chanCount + 1), chanText),
                (lengthKey (b.chanCount + 1), "-1")] } := by
  have h1 : iniSet b.ini (fileKey (b.chanCount + 1))
      (chanUrl b.apiKey b.quality host chanKey)
      = b.ini
        ++ [(fileKey (b.chanCount + 1), chanUrl b.apiKey b.quality host chanKey)] :=
    iniSet_notmem _ (fun kv hkv =>
      goodKey_ne_fileKey (hg kv hkv) (Nat.lt_succ_self _))
  have h2 : iniSet
      (b.ini
        ++ [(fileKey (b.chanCount + 1), chanUrl b.apiKey b.quality host chanKey)])
      (titleKey (b.chanCount + 1)) chanText
      = (b.ini
          ++ [(fileKey (b.chanCount + 1), chanUrl b.apiKey b.quality host chanKey)])
        ++ [(titleKey (b.chanCount + 1), chanText)] := by
    apply iniSet_notmem
    intro kv hkv
    rcases List.mem_append.mp hkv with h | h
    · exact goodKey_ne_titleKey (hg kv h) (Nat.lt_succ_self _)
    · simp at h
      rw [h]
      exact fileKey_ne_titleKey _ _
  have h3 : iniSet
      ((b.ini
          ++ [(fileKey (b.chanCount + 1), chanUrl b.apiKey b.quality host chanKey)])
        ++ [(titleKey (b.chanCount + 1), chanText)])
      (lengthKey (b.chanCount + 1)) "-1"
      = ((b.ini
            ++ [(fileKey (b.chanCount + 1), chanUrl b.apiKey b.quality host chanKey)])
          ++ [(titleKey (b.chanCount + 1), chanText)])
        ++ [(lengthKey (b.chanCount + 1), "-1")] := by
    apply iniSet_notmem
    intro kv hkv
    rcases List.mem_append.mp hkv with h | h
    · rcases List.mem_append.mp h with h' | h'
      · exact goodKey_ne_lengthKey (hg kv h') (Nat.lt_succ_self _)
      · simp at h'
        rw [h']
        exact fileKey_ne_lengthKey _ _
    · simp at h
      rw [h]
      exact titleKey_ne_lengthKey _ _
  show { b with
      chanCount := b.chanCount + 1,
      ini := iniSet (iniSet (iniSet b.ini _ _) _ _) _ _ } = _
  rw [h1, h2, h3]
  simp [List.append_assoc]

theorem entryBlock_keys :
    ∀ (hosts : List String) (a q ck ct : String) (c : Nat),
      ∀ kv ∈ entryBlock a q ck ct c hosts, entryKey (c + hosts.length) kv.1 := by
  intro hosts
  induction hosts with
  | nil => intro a q ck ct c kv hkv; simp [entryBlock] at hkv
  | cons h hs ih =>
    intro a q ck ct c kv hkv
    simp only [entryBlock, List.mem_cons] at hkv
    rcases hkv with hkv | hkv | hkv | hkv
    · exact ⟨c + 1, by omega, by simp, by simp [hkv]⟩
    · exact ⟨c + 1, by omega, by simp, by simp [hkv]⟩
    · exact ⟨c + 1, by omega, by simp, by simp [hkv]⟩
    · have := ih a q ck ct (c + 1) kv hkv
      exact entryKey_mono this (by simp; omega)

theorem goodIni_append_block {c : Nat} {ini : List (String × String)}
    (hg : goodIni c ini) (a q ck ct : String) (hosts : List String) :
    goodIni (c + hosts.length) (ini ++ entryBlock a q ck ct c hosts) := by
  intro kv hkv
  rcases List.mem_append.mp hkv with h | h
  · exact goodKey_mono (hg kv h) (Nat.le_add_right _ _)
  · left
    exact entryBlock_keys hosts a q ck ct c kv h

theorem appendHosts_eq :
    ∀ (hosts : List String) (b : PlaylistBuilder) (chanKey chanText : String),
      goodIni b.chanCount b.ini →
      List.foldl (PlaylistBuilder.appendHost chanKey chanText) b hosts
        = { b with
            chanCount := b.chanCount + hosts.length,
            ini := b.ini
              ++ entryBlock b.apiKey b.quality chanKey chanText b.chanCount
                  hosts } := by
  intro hosts
  induction hosts with
  | nil =>
    intro b ck ct _
    simp [entryBlock]
  | cons h hs ih =>
    intro b ck ct hg
    rw [List.foldl_cons, appendHost_eq b ck ct h hg]
    rw [ih _ ck ct]
    · cases b with
      | mk a ss q c ini0 =>
        show PlaylistBuilder.mk a ss q _ _ = PlaylistBuilder.mk a ss q _ _
        congr 1
        · simp only [List.length_cons]
          omega
        · simp [entryBlock, List.append_assoc]
    · show goodIni (b.chanCount + 1) _
      intro kv hkv
      rcases List.mem_append.mp hkv with hm | hm
      · exact goodKey_mono (hg kv hm) (Nat.le_succ _)
      · left
        refine ⟨b.chanCount + 1, by omega, le_refl _, ?_⟩
        simp at hm
        rcases hm with hm | hm | hm <;> simp [hm]

theorem append_eq (b : PlaylistBuilder) (ck ct : String)
    (hg : goodIni b.chanCount b.ini) :
    b.append ck ct
      = { b with
          chanCount := b.chanCount + b.servers.length,
          ini := b.ini
            ++ entryBlock b.apiKey b.quality ck ct b.chanCount b.servers } :=
  appendHosts_eq b.servers b ck ct hg

/-! ## The good-keys invariant along any call sequence -/

theorem goodIni_nil (c : Nat) : goodIni c ([] : List (String × String)) := by
  intro kv hkv
  simp at hkv

theorem goodIni_write_sets {c c2 : Nat} {ini : List (String × String)}
    (hg : goodIni c ini) :
    goodIni c (iniSet (iniSet ini "NumberOfEntries" (natRepr c2)) "Version" "2") := by
  intro kv hkv
  rcases iniSet_key_of_mem hkv with h | ⟨kv2, h2, he⟩
  · exact Or.inr (Or.inr h)
  · rcases iniSet_key_of_mem h2 with h' | ⟨kv3, h3, he'⟩
    · rw [he]
      exact Or.inr (Or.inl h')
    · rw [he, he']
      exact hg kv3 h3

theorem goodIni_applyOp {b : PlaylistBuilder} (hg : goodIni b.chanCount b.ini) :
    ∀ op, goodIni (applyOp b op).chanCount (applyOp b op).ini := by
  intro op
  cases op with
  | app k t =>
    show goodIni (b.append k t).chanCount (b.append k t).ini
    rw [append_eq b k t hg]
    exact goodIni_append_block hg _ _ _ _ _
  | reset =>
    intro kv hkv
    simp [applyOp, PlaylistBuilder.zero_list] at hkv
  | write => exact goodIni_write_sets hg

theorem goodIni_runOps :
    ∀ (ops : List BOp) (b : PlaylistBuilder),
      goodIni b.chanCount b.ini →
      goodIni (runOps b ops).chanCount (runOps b ops).ini := by
  intro ops
  induction ops with
  | nil => intro b hg; exact hg
  | cons op rest ih => intro b hg; exact ih (applyOp b op) (goodIni_applyOp hg op)

theorem foldl_appendHost_fields :
    ∀ (hosts : List String) (b : PlaylistBuilder) (ck ct : String),
      (List.foldl (PlaylistBuilder.appendHost ck ct) b hosts).apiKey = b.apiKey
        ∧ (List.foldl (PlaylistBuilder.appendHost ck ct) b hosts).servers = b.servers
        ∧ (List.foldl (PlaylistBuilder.appendHost ck ct) b hosts).quality = b.quality := by
  intro hosts
  induction hosts with
  | nil => intro b ck ct; exact ⟨rfl, rfl, rfl⟩
  | cons h hs ih =>
    intro b ck ct
    exact ih (PlaylistBuilder.appendHost ck ct b h) ck ct

theorem applyOp_fields (b : PlaylistBuilder) (op : BOp) :
    (applyOp b op).apiKey = b.apiKey
      ∧ (applyOp b op).servers = b.servers
      ∧ (applyOp b op).quality = b.quality := by
  cases op with
  | app k t => exact foldl_appendHost_fields b.servers b k t
  | reset => exact ⟨rfl, rfl, rfl⟩
  | write => exact ⟨rfl, rfl, rfl⟩

theorem runOps_fields :
    ∀ (ops : List BOp) (b : PlaylistBuilder),
      (runOps b ops).apiKey = b.apiKey
        ∧ (runOps b ops).servers = b.servers
        ∧ (runOps b ops).quality = b.quality := by
  intro ops
  induction ops with
  | nil => intro b; exact ⟨rfl, rfl, rfl⟩
  | cons op rest ih =>
    intro b
    have h1 := applyOp_fields b op
    have h2 := ih (applyOp b op)
    exact ⟨h2.1.trans h1.1, h2.2.1.trans h1.2.1, h2.2.2.trans h1.2.2⟩

/-! ## Characterization of builders reachable by appends -/

theorem channelAppends_eq :
    ∀ (pairs : List (String × String)) (b : PlaylistBuilder),
      goodIni b.chanCount b.ini →
      List.foldl (fun bb p => bb.append p.1 p.2) b pairs
        = { b with
            chanCount := b.chanCount + pairs.length * b.servers.length,
            ini := b.ini
              ++ channelEntries b.apiKey b.quality b.servers b.chanCount
                  pairs } := by
  intro pairs
  induction pairs with
  | nil => intro b hg; simp [channelEntries]
  | cons p rest ih =>
    intro b hg
    obtain ⟨k, t⟩ := p
    rw [List.foldl_cons]
    have hb' := append_eq b k t hg
    rw [hb']
    rw [ih _ (hb' ▸ goodIni_applyOp hg (.app k t))]
    cases b with
    | mk a ss q c ini0 =>
      show PlaylistBuilder.mk a ss q _ _ = PlaylistBuilder.mk a ss q _ _
      congr 1
      · simp only [List.length_cons]
        ring
      · simp [channelEntries, List.append_assoc]

theorem buildFromList_eq (a : String) (ss : List String) (q : String)
    (pairs : List (String × String)) :
    buildFromList a ss q pairs
      = { apiKey := a, servers := ss, quality := q,
          chanCount := pairs.length * ss.length,
          ini := channelEntries a q ss 0 pairs } := by
  rw [buildFromList, channelAppends_eq pairs (PlaylistBuilder.init a ss q)
    (goodIni_nil 0)]
  simp [PlaylistBuilder.init, PlaylistBuilder.zero_list]

theorem buildFromList_zero_list (a : String) (ss : List String) (q : String)
    (pairs : List (String × String)) :
    (buildFromList a ss q pairs).zero_list = PlaylistBuilder.init a ss q := by
  rw [buildFromList_eq]
  rfl

theorem buildFromList_snoc (a : String) (ss : List String) (q : String)
    (pairs : List (String × String)) (p : String × String) :
    buildFromList a ss q (pairs ++ [p])
      = (buildFromList a ss q pairs).append p.1 p.2 := by
  rw [buildFromList, buildFromList, List.foldl_append]
  rfl

theorem runOps_no_write (a : String) (ss : List String) (q : String) :
    ∀ (ops : List BOp) (pairs : List (String × String)),
      BOp.write ∉ ops →
      runOps (buildFromList a ss q pairs) ops
        = buildFromList a ss q (opsAppends pairs ops) := by
  intro ops
  induction ops with
  | nil => intro pairs _; rfl
  | cons op rest ih =>
    intro pairs hw
    have hwr : BOp.write ∉ rest := fun h => hw (List.mem_cons_of_mem op h)
    cases op with
    | app k t =>
      show runOps ((buildFromList a ss q pairs).append k t) rest = _
      rw [← buildFromList_snoc a ss q pairs (k, t), ih _ hwr]
      rfl
    | reset =>
      show runOps ((buildFromList a ss q pairs).zero_list) rest = _
      rw [buildFromList_zero_list]
      show runOps (buildFromList a ss q []) rest = _
      rw [ih _ hwr]
      rfl
    | write => exact absurd (List.mem_cons_self _ _) (fun h => hw h)

theorem runOps_from_init (a : String) (ss : List String) (q : String)
    (ops : List BOp) (hw : BOp.write ∉ ops) :
    runOps (PlaylistBuilder.init a ss q) ops
      = buildFromList a ss q (tailAppends ops) :=
  runOps_no_write a ss q ops [] hw

/-! ## Index extraction -/

theorem dropPre_append (p l : List Char) : dropPre p (p ++ l) = some l := by
  induction p with
  | nil => rfl
  | cons c cs ih => simp [dropPre, ih]

theorem dropPre_head_ne {a b : Char} (ps cs : List Char) (h : b ≠ a) :
    dropPre (a :: ps) (b :: cs) = none := by
  simp [dropPre, h]

theorem dropPre_data_ne {a b : Char} {p q : String} {rp rq : List Char}
    (hp : p.data = a :: rp) (hq : q.data = b :: rq) (h : b ≠ a) (s : String) :
    dropPre p.data (q ++ s).data = none := by
  rw [sdata_append, hp, hq, List.cons_append]
  exact dropPre_head_ne _ _ h

theorem dropPre_file_fileKey (i : Nat) :
    dropPre ("File".data) (fileKey i).data = some (natRepr i).data := by
  show dropPre ("File".data) ("File" ++ natRepr i).data = _
  rw [sdata_append]
  exact dropPre_append _ _

theorem dropPre_title_titleKey (i : Nat) :
    dropPre ("Title".data) (titleKey i).data = some (natRepr i).data := by
  show dropPre ("Title".data) ("Title" ++ natRepr i).data = _
  rw [sdata_append]
  exact dropPre_append _ _

theorem dropPre_length_lengthKey (i : Nat) :
    dropPre ("Length".data) (lengthKey i).data = some (natRepr i).data := by
  show dropPre ("Length".data) ("Length" ++ natRepr i).data = _
  rw [sdata_append]
  exact dropPre_append _ _

theorem dropPre_file_titleKey (i : Nat) :
    dropPre ("File".data) (titleKey i).data = none :=
  dropPre_data_ne rfl rfl (by decide) (natRepr i)

theorem dropPre_file_lengthKey (i : Nat) :
    dropPre ("File".data) (lengthKey i).data = none :=
  dropPre_data_ne rfl rfl (by decide) (natRepr i)

theorem dropPre_title_fileKey (i : Nat) :
    dropPre ("Title".data) (fileKey i).data = none :=
  dropPre_data_ne rfl rfl (by decide) (natRepr i)

theorem dropPre_title_lengthKey (i : Nat) :
    dropPre ("Title".data) (lengthKey i).data = none :=
  dropPre_data_ne rfl rfl (by decide) (natRepr i)

theorem dropPre_length_fileKey (i : Nat) :
    dropPre ("Length".data) (fileKey i).data = none :=
  dropPre_data_ne rfl rfl (by decide) (natRepr i)

theorem dropPre_length_titleKey (i : Nat) :
    dropPre ("Length".data) (titleKey i).data = none :=
  dropPre_data_ne rfl rfl (by decide) (natRepr i)

theorem idxFrom_add :
    ∀ (m : Nat), ∀ (n c : Nat),
      idxFrom c (m + n) = idxFrom c m ++ idxFrom (c + m) n := by
  intro m
  induction m with
  | zero => intro n c; simp [idxFrom]
  | succ m ih =>
    intro n c
    have h1 : m + 1 + n = (m + n) + 1 := by omega
    rw [h1]
    show (c + 1) :: idxFrom (c + 1) (m + n) = ((c + 1) :: idxFrom (c + 1) m) ++ _
    rw [ih n (c + 1), List.cons_append]
    have h2 : c + 1 + m = c + (m + 1) := by omega
    rw [h2]

theorem idxFrom_length : ∀ (n c : Nat), (idxFrom c n).length = n := by
  intro n
  induction n with
  | zero => intro c; rfl
  | succ n ih => intro c; simp [idxFrom, ih]

theorem fileIdxData_entryBlock :
    ∀ (hosts : List String) (a q ck ct : String) (c : Nat),
      fileIdxData (entryBlock a q ck ct c hosts)
        = (idxFrom c hosts.length).map (fun i => (natRepr i).data) := by
  intro hosts
  induction hosts with
  | nil => intro a q ck ct c; rfl
  | cons h hs ih =>
    intro a q ck ct c
    simp only [entryBlock, fileIdxData, List.filterMap_cons,
      dropPre_file_fileKey, dropPre_file_titleKey, dropPre_file_lengthKey,
      List.length_cons, idxFrom, List.map_cons]
    exact congrArg _ (ih a q ck ct (c + 1))

theorem titleIdxData_entryBlock :
    ∀ (hosts : List String) (a q ck ct : String) (c : Nat),
      titleIdxData (entryBlock a q ck ct c hosts)
        = (idxFrom c hosts.length).map (fun i => (natRepr i).data) := by
  intro hosts
  induction hosts with
  | nil => intro a q ck ct c; rfl
  | cons h hs ih =>
    intro a q ck ct c
    simp only [entryBlock, titleIdxData, List.filterMap_cons,
      dropPre_title_fileKey, dropPre_title_titleKey, dropPre_title_lengthKey,
      List.length_cons, idxFrom, List.map_cons]
    exact congrArg _ (ih a q ck ct (c + 1))

theorem lengthIdxData_entryBlock :
    ∀ (hosts : List String) (a q ck ct : String) (c : Nat),
      lengthIdxData (entryBlock a q ck ct c hosts)
        = (idxFrom c hosts.length).map (fun i => (natRepr i).data) := by
  intro hosts
  induction hosts with
  | nil => intro a q ck ct c; rfl
  | cons h hs ih =>
    intro a q ck ct c
    simp only [entryBlock, lengthIdxData, List.filterMap_cons,
      dropPre_length_fileKey, dropPre_length_titleKey,
      dropPre_length_lengthKey, List.length_cons, idxFrom, List.map_cons]
    exact congrArg _ (ih a q ck ct (c + 1))

theorem entrySel_fileKey (i : Nat) (v : String) :
    entrySel (fileKey i, v) = some (natRepr i).data := by
  simp only [entrySel, dropPre_file_fileKey]
  rfl

theorem entrySel_titleKey (i : Nat) (v : String) :
    entrySel (titleKey i, v) = some (natRepr i).data := by
  simp only [entrySel, dropPre_file_titleKey, dropPre_title_titleKey]
  rfl

theorem entrySel_lengthKey (i : Nat) (v : String) :
    entrySel (lengthKey i, v) = some (natRepr i).data := by
  simp only [entrySel, dropPre_file_lengthKey, dropPre_title_lengthKey,
    dropPre_length_lengthKey]
  rfl

theorem entryIdxData_entryBlock :
    ∀ (hosts : List String) (a q ck ct : String) (c : Nat),
      entryIdxData (entryBlock a q ck ct c hosts)
        = (idxFrom c hosts.length).flatMap
            (fun i => [(natRepr i).data, (natRepr i).data, (natRepr i).data]) := by
  intro hosts
  induction hosts with
  | nil => intro a q ck ct c; rfl
  | cons h hs ih =>
    intro a q ck ct c
    simp only [entryIdxData, entryBlock, List.filterMap_cons,
      entrySel_fileKey, entrySel_titleKey, entrySel_lengthKey,
      List.length_cons, idxFrom, List.flatMap_cons]
    simp only [List.cons_append, List.nil_append]
    refine congrArg _ (congrArg _ (congrArg _ ?_))
    exact ih a q ck ct (c + 1)

theorem fileIdxData_channelEntries :
    ∀ (pairs : List (String × String)) (a q : String) (ss : List String)
      (c : Nat),
      fileIdxData (channelEntries a q ss c pairs)
        = (idxFrom c (pairs.length * ss.length)).map
            (fun i => (natRepr i).data) := by
  intro pairs
  induction pairs with
  | nil => intro a q ss c; simp [channelEntries, fileIdxData, idxFrom]
  | cons p rest ih =>
    intro a q ss c
    obtain ⟨k, t⟩ := p
    show fileIdxData (entryBlock a q k t c ss ++ _) = _
    rw [fileIdxData, List.filterMap_append]
    have h1 : (rest.length + 1) * ss.length
        = ss.length + rest.length * ss.length := by ring
    simp only [List.length_cons, h1, idxFrom_add, List.map_append]
    congr 1
    · exact fileIdxData_entryBlock ss a q k t c
    · exact ih a q ss (c + ss.length)

/-! ## Serialized text and generic key=value re-reading -/

theorem smk_data (s : String) : String.mk s.data = s := by
  cases s with
  | mk d => rfl

theorem concatStrs_append :
    ∀ (l1 l2 : List String),
      concatStrs (l1 ++ l2) = concatStrs l1 ++ concatStrs l2 := by
  intro l1
  induction l1 with
  | nil =>
    intro l2
    apply sext
    simp [concatStrs, sdata_append]
  | cons s rest ih =>
    intro l2
    show s ++ concatStrs (rest ++ l2) = (s ++ concatStrs rest) ++ concatStrs l2
    rw [ih, sapp_assoc]

theorem flatMap_escNl_id :
    ∀ (l : List Char), '\n' ∉ l →
      (l.flatMap fun c => if c = '\n' then ['\n', '\t'] else [c]) = l := by
  intro l
  induction l with
  | nil => intro _; rfl
  | cons c cs ih =>
    intro h
    have hc : c ≠ '\n' := fun e => h (by simp [e])
    simp only [List.flatMap_cons, if_neg hc]
    rw [ih (fun hm => h (List.mem_cons_of_mem c hm))]
    rfl

theorem escNl_of_noNl {s : String} (h : noNl s) : escNl s = s := by
  apply sext
  show (s.data.flatMap fun c => if c = '\n' then ['\n', '\t'] else [c]) = s.data
  exact flatMap_escNl_id s.data h

theorem escNl_natRepr (n : Nat) : escNl (natRepr n) = natRepr n :=
  escNl_of_noNl natRepr_no_nl

theorem linesOf_append_line :
    ∀ (xs rest : List Char), '\n' ∉ xs →
      linesOf (xs ++ '\n' :: rest) = xs :: linesOf rest := by
  intro xs
  induction xs with
  | nil => intro rest _; simp [linesOf]
  | cons c cs ih =>
    intro rest h
    have hc : c ≠ '\n' := fun e => h (by simp [e])
    show linesOf (c :: (cs ++ '\n' :: rest)) = _
    rw [linesOf, if_neg hc, ih rest (fun hm => h (List.mem_cons_of_mem c hm))]

theorem splitEq_append :
    ∀ (key val : List Char), '=' ∉ key →
      splitEq (key ++ '=' :: val) = some (key, val) := by
  intro key
  induction key with
  | nil => intro val _; simp [splitEq]
  | cons c cs ih =>
    intro val h
    have hc : c ≠ '=' := fun e => h (by simp [e])
    show splitEq (c :: (cs ++ '=' :: val)) = _
    rw [splitEq, if_neg hc, ih val (fun hm => h (List.mem_cons_of_mem c hm))]
    rfl

theorem splitEq_none :
    ∀ (l : List Char), '=' ∉ l → splitEq l = none := by
  intro l
  induction l with
  | nil => intro _; rfl
  | cons c cs ih =>
    intro h
    have hc : c ≠ '=' := fun e => h (by simp [e])
    rw [splitEq, if_neg hc, ih (fun hm => h (List.mem_cons_of_mem c hm))]
    rfl

theorem lineKV_pair (key val : String) (h : '=' ∉ key.data) :
    lineKV (key.data ++ '=' :: val.data) = some (key, val) := by
  rw [lineKV, splitEq_append key.data val.data h]
  simp [smk_data]

theorem linesOf_render :
    ∀ (L : List (String × String)) (rest : List Char),
      (∀ kv ∈ L, noNl kv.1 ∧ noNl kv.2) →
      linesOf ((concatStrs (L.map lineOf)).data ++ rest)
        = (L.map fun kv => kv.1.data ++ '=' :: kv.2.data) ++ linesOf rest := by
  intro L
  induction L with
  | nil => intro rest _; simp [concatStrs]
  | cons kv L2 ih =>
    intro rest h
    have hkv := h kv (by simp)
    have hL2 : ∀ x ∈ L2, noNl x.1 ∧ noNl x.2 :=
      fun x hx => h x (by simp [hx])
    have hnl : '\n' ∉ kv.1.data ++ '=' :: kv.2.data := by
      intro hm
      rcases List.mem_append.mp hm with hm | hm
      · exact hkv.1 hm
      · rcases List.mem_cons.mp hm with hm | hm
        · exact absurd hm (by decide)
        · exact hkv.2 hm
    have hl := linesOf_append_line (kv.1.data ++ '=' :: kv.2.data)
      ((concatStrs (L2.map lineOf)).data ++ rest) hnl
    have hdata : (concatStrs ((kv :: L2).map lineOf)).data ++ rest
        = (kv.1.data ++ '=' :: kv.2.data)
          ++ '\n' :: ((concatStrs (L2.map lineOf)).data ++ rest) := by
      show (lineOf kv ++ concatStrs (L2.map lineOf)).data ++ rest = _
      rw [sdata_append,
        show lineOf kv = kv.1 ++ "=" ++ escNl kv.2 ++ "\n" from rfl,
        escNl_of_noNl hkv.2]
      simp [sdata_append]
    rw [hdata, hl, ih rest hL2]
    rfl

theorem filterMap_lineKV_lines :
    ∀ (L : List (String × String)), (∀ kv ∈ L, '=' ∉ kv.1.data) →
      List.filterMap lineKV (L.map fun kv => kv.1.data ++ '=' :: kv.2.data)
        = L := by
  intro L
  induction L with
  | nil => intro _; rfl
  | cons kv L2 ih =>
    intro h
    rw [List.map_cons, List.filterMap_cons,
      lineKV_pair kv.1 kv.2 (h kv (by simp)),
      ih (fun x hx => h x (by simp [hx]))]

theorem parse_serializeIni (ini : List (String × String))
    (h : ∀ kv ∈ ini, noNl kv.1 ∧ noNl kv.2 ∧ '=' ∉ kv.1.data) :
    parsePLS (serializeIni ini) = ini := by
  rw [parsePLS, serializeIni]
  have hdata : ("[playlist]\n" ++ concatStrs (ini.map lineOf) ++ "\n").data
      = "[playlist]".data
        ++ '\n' :: ((concatStrs (ini.map lineOf)).data ++ '\n' :: []) := by
    simp [sdata_append]
  rw [hdata]
  rw [linesOf_append_line _ _ (by decide)]
  rw [linesOf_render ini _ (fun kv hkv => ⟨(h kv hkv).1, (h kv hkv).2.1⟩)]
  rw [show linesOf ['\n'] = [[], []] from rfl]
  rw [List.filterMap_cons]
  rw [show lineKV ("[playlist]".data) = none from by decide]
  rw [List.filterMap_append]
  rw [filterMap_lineKV_lines ini (fun kv hkv => (h kv hkv).2.2)]
  rw [show List.filterMap lineKV [[], []] = [] from rfl]
  simp

theorem lookupVal_skip :
    ∀ (A B : List (String × String)) (k : String),
      (∀ kv ∈ A, kv.1 ≠ k) → lookupVal (A ++ B) k = lookupVal B k := by
  intro A
  induction A with
  | nil => intro B k _; rfl
  | cons kv rest ih =>
    intro B k h
    show lookupVal (kv :: (rest ++ B)) k = _
    rw [lookupVal, if_neg (h kv (by simp))]
    exact ih B k (fun x hx => h x (by simp [hx]))

/-! ## Character-level facts about stored keys and values -/

theorem fileKey_noNl (i : Nat) : noNl (fileKey i) := by
  intro hm
  rw [show (fileKey i).data = "File".data ++ (natRepr i).data from rfl] at hm
  rcases List.mem_append.mp hm with hm | hm
  · exact absurd hm (by decide)
  · exact natRepr_no_nl hm

theorem titleKey_noNl (i : Nat) : noNl (titleKey i) := by
  intro hm
  rw [show (titleKey i).data = "Title".data ++ (natRepr i).data from rfl] at hm
  rcases List.mem_append.mp hm with hm | hm
  · exact absurd hm (by decide)
  · exact natRepr_no_nl hm

theorem lengthKey_noNl (i : Nat) : noNl (lengthKey i) := by
  intro hm
  rw [show (lengthKey i).data = "Length".data ++ (natRepr i).data from rfl] at hm
  rcases List.mem_append.mp hm with hm | hm
  · exact absurd hm (by decide)
  · exact natRepr_no_nl hm

theorem fileKey_noEq (i : Nat) : '=' ∉ (fileKey i).data := by
  intro hm
  rw [show (fileKey i).data = "File".data ++ (natRepr i).data from rfl] at hm
  rcases List.mem_append.mp hm with hm | hm
  · exact absurd hm (by decide)
  · exact natRepr_no_eqch hm

theorem titleKey_noEq (i : Nat) : '=' ∉ (titleKey i).data := by
  intro hm
  rw [show (titleKey i).data = "Title".data ++ (natRepr i).data from rfl] at hm
  rcases List.mem_append.mp hm with hm | hm
  · exact absurd hm (by decide)
  · exact natRepr_no_eqch hm

theorem lengthKey_noEq (i : Nat) : '=' ∉ (lengthKey i).data := by
  intro hm
  rw [show (lengthKey i).data = "Length".data ++ (natRepr i).data from rfl] at hm
  rcases List.mem_append.mp hm with hm | hm
  · exact absurd hm (by decide)
  · exact natRepr_no_eqch hm

theorem chanUrl_noNl {a q h k : String} (ha : noNl a) (hq : noNl q)
    (hh : noNl h) (hk : noNl k) : noNl (chanUrl a q h k) := by
  intro hm
  rw [chanUrl] at hm
  simp only [sdata_append, List.mem_append] at hm
  rcases hm with (((((hm | hm) | hm) | hm) | hm) | hm) | hm
  · exact absurd hm (by decide)
  · exact hh hm
  · exact absurd hm (by decide)
  · exact hk hm
  · exact hq hm
  · exact absurd hm (by decide)
  · exact ha hm

theorem entryBlock_kv_props :
    ∀ (hosts : List String) (a q ck ct : String) (c : Nat),
      noNl a → noNl q → noNl ck → noNl ct → (∀ h ∈ hosts, noNl h) →
      ∀ kv ∈ entryBlock a q ck ct c hosts,
        noNl kv.1 ∧ noNl kv.2 ∧ '=' ∉ kv.1.data := by
  intro hosts
  induction hosts with
  | nil => intro a q ck ct c _ _ _ _ _ kv hkv; simp [entryBlock] at hkv
  | cons h hs ih =>
    intro a q ck ct c ha hq hck hct hhosts kv hkv
    simp only [entryBlock, List.mem_cons] at hkv
    rcases hkv with hkv | hkv | hkv | hkv
    · rw [hkv]
      exact ⟨fileKey_noNl _,
        chanUrl_noNl ha hq (hhosts h (by simp)) hck, fileKey_noEq _⟩
    · rw [hkv]
      exact ⟨titleKey_noNl _, hct, titleKey_noEq _⟩
    · rw [hkv]
      refine ⟨lengthKey_noNl _, ?_, lengthKey_noEq _⟩
      show noNl ("-1" : String)
      decide
    · exact ih a q ck ct (c + 1) ha hq hck hct
        (fun x hx => hhosts x (by simp [hx])) kv hkv

theorem channelEntries_kv_props :
    ∀ (pairs : List (String × String)) (a q : String) (ss : List String)
      (c : Nat),
      noNl a → noNl q → (∀ h ∈ ss, noNl h) →
      (∀ p ∈ pairs, noNl p.1 ∧ noNl p.2) →
      ∀ kv ∈ channelEntries a q ss c pairs,
        noNl kv.1 ∧ noNl kv.2 ∧ '=' ∉ kv.1.data := by
  intro pairs
  induction pairs with
  | nil => intro a q ss c _ _ _ _ kv hkv; simp [channelEntries] at hkv
  | cons p rest ih =>
    intro a q ss c ha hq hss hp kv hkv
    obtain ⟨k, t⟩ := p
    rcases List.mem_append.mp hkv with hm | hm
    · exact entryBlock_kv_props ss a q k t c ha hq
        (hp (k, t) (by simp)).1 (hp (k, t) (by simp)).2 hss kv hm
    · exact ih a q ss (c + ss.length) ha hq hss
        (fun x hx => hp x (by simp [hx])) kv hm

/-! ## Channel enumeration and server-list resolution -/

theorem enumChannels_spec :
    ∀ (opts : List OptionElem), (∀ o ∈ opts, o.text ≠ none) →
      enumChannels true opts
        = { errs := (specChannelScan opts).1,
            pairs := (specChannelScan opts).2, crash := none } := by
  intro opts
  induction opts with
  | nil => intro _; rfl
  | cons o rest ih =>
    intro h
    have hrest := ih (fun x hx => h x (by simp [hx]))
    obtain ⟨attrs, otext⟩ := o
    cases hE : otext with
    | none => exact absurd (hE ▸ h ⟨attrs, otext⟩ (by simp)) (by simp [hE])
    | some txt =>
      subst hE
      show (if getAttr attrs "value" = some "" then enumChannels true rest
          else _) = _
      cases hK : getAttr attrs "value" with
      | none =>
        rw [if_neg (by simp [hK])]
        simp only [hK]
        rw [hrest]
        simp only [specChannelScan, hK]
        rfl
      | some v =>
        by_cases hv : v = ""
        · subst hv
          rw [if_pos rfl, hrest]
          simp only [specChannelScan, hK]
          rfl
        · rw [if_neg (by simp [hv])]
          simp only [hK]
          rw [hrest]
          simp only [specChannelScan, hK]
          rw [if_neg hv]
          rfl

theorem pySliceTo_nonneg (l : List String) (m : Int) (h : 0 ≤ m) :
    pySliceTo l m = l.take m.toNat := by
  rw [pySliceTo]
  rcases Int.lt_or_le m 0 with h' | h'
  · omega
  · rw [if_neg (by omega)]

theorem pySliceTo_neg (l : List String) (m : Int) (h : m < 0) :
    pySliceTo l m = l.take (l.length - m.natAbs) := by
  rw [pySliceTo, if_pos h]
  congr 1
  omega

theorem resolveServers_resolved (sv : Option (List String)) :
    (if serversTruthy sv then sv.getD [] else ["prem1", "prem4"])
      = specResolvedServers sv := by
  cases sv with
  | none => rfl
  | some l =>
    by_cases hl : l.isEmpty
    · simp [serversTruthy, specResolvedServers, hl]
    · simp [serversTruthy, specResolvedServers, hl]

theorem resolveServers_defaultCap (sv : Option (List String))
    (fl : Option String) :
    pySliceTo (specResolvedServers sv)
        (if fileTruthy fl then 1 else ((specResolvedServers sv).length : Int))
      = specDefaultCap sv fl := by
  by_cases hf : fileTruthy fl
  · rw [if_pos hf, specDefaultCap, if_pos hf, pySliceTo_nonneg _ _ (by omega)]
    rfl
  · rw [if_neg hf, specDefaultCap, if_neg hf, pySliceTo_nonneg _ _ (by omega)]
    simp

theorem resolveServers_eq_spec (sv : Option (List String)) (mx : Option Int)
    (fl : Option String) :
    resolveServers sv mx fl = specEffectiveServers sv mx fl := by
  rw [resolveServers, resolveServers_resolved sv]
  cases mx with
  | none =>
    rw [show specEffectiveServers sv none fl = specDefaultCap sv fl from rfl,
      ← resolveServers_defaultCap sv fl]
    rw [if_neg (show ¬maxTruthy none = true by decide)]
  | some m =>
    by_cases hm : m = 0
    · subst hm
      rw [show specEffectiveServers sv (some 0) fl = specDefaultCap sv fl
          from rfl, ← resolveServers_defaultCap sv fl]
      rw [if_neg (show ¬maxTruthy (some 0) = true by decide)]
    · rw [if_pos (show maxTruthy (some m) = true by
        simp [maxTruthy, hm])]
      rw [show specEffectiveServers sv (some m) fl
          = if m = 0 then specDefaultCap sv fl
            else if 0 < m then (specResolvedServers sv).take m.toNat
            else (specResolvedServers sv).take
              ((specResolvedServers sv).length - m.natAbs) from rfl]
      rw [if_neg hm]
      rcases Int.lt_or_le 0 m with hpos | hneg
      · rw [if_pos hpos]
        show pySliceTo (specResolvedServers sv) m = _
        rw [pySliceTo_nonneg _ _ (by omega)]
      · rw [if_neg (by omega)]
        show pySliceTo (specResolvedServers sv) m = _
        rw [pySliceTo_neg _ _ (by omega)]

/-! ## The write footer -/

theorem channelEntries_keys :
    ∀ (pairs : List (String × String)) (a q : String) (ss : List String)
      (c : Nat),
      ∀ kv ∈ channelEntries a q ss c pairs,
        entryKey (c + pairs.length * ss.length) kv.1 := by
  intro pairs
  induction pairs with
  | nil => intro a q ss c kv hkv; simp [channelEntries] at hkv
  | cons p rest ih =>
    intro a q ss c kv hkv
    obtain ⟨k, t⟩ := p
    rcases List.mem_append.mp hkv with hm | hm
    · refine entryKey_mono (entryBlock_keys ss a q k t c kv hm) ?_
      simp only [List.length_cons]
      have : (rest.length + 1) * ss.length
          = ss.length + rest.length * ss.length := by ring
      omega
    · have := ih a q ss (c + ss.length) kv hm
      refine entryKey_mono this ?_
      simp only [List.length_cons]
      have : (rest.length + 1) * ss.length
          = ss.length + rest.length * ss.length := by ring
      omega

theorem footer_sets (E : List (String × String)) (n : Nat)
    (hE : ∀ kv ∈ E, entryKey n kv.1) (v w : String) :
    iniSet (iniSet E "NumberOfEntries" v) "Version" w
      = E ++ [("NumberOfEntries", v), ("Version", w)] := by
  rw [iniSet_notmem v (fun kv hkv => entryKey_ne_numKey (hE kv hkv))]
  rw [iniSet_notmem w ?hver]
  · simp
  case hver =>
    intro kv hkv
    rcases List.mem_append.mp hkv with hm | hm
    · exact entryKey_ne_verKey (hE kv hm)
    · simp at hm
      rw [hm]
      exact (by decide : ("NumberOfEntries" : String) ≠ "Version")

theorem write_build (a : String) (ss : List String) (q : String)
    (pairs : List (String × String)) :
    ((PlaylistBuilder.write (buildFromList a ss q pairs)).1).ini
        = channelEntries a q ss 0 pairs
          ++ [("NumberOfEntries", natRepr (pairs.length * ss.length)),
              ("Version", "2")]
      ∧ (PlaylistBuilder.write (buildFromList a ss q pairs)).2
        = serializeIni (channelEntries a q ss 0 pairs
            ++ [("NumberOfEntries", natRepr (pairs.length * ss.length)),
                ("Version", "2")]) := by
  rw [buildFromList_eq]
  have hE : ∀ kv ∈ channelEntries a q ss 0 pairs,
      entryKey (pairs.length * ss.length) kv.1 := by
    intro kv hkv
    have := channelEntries_keys pairs a q ss 0 kv hkv
    rwa [Nat.zero_add] at this
  have hset := footer_sets (channelEntries a q ss 0 pairs) _ hE
    (natRepr (pairs.length * ss.length)) "2"
  constructor
  · show iniSet (iniSet (channelEntries a q ss 0 pairs) "NumberOfEntries"
        (natRepr (pairs.length * ss.length))) "Version" "2" = _
    exact hset
  · show serializeIni (iniSet (iniSet (channelEntries a q ss 0 pairs)
        "NumberOfEntries" (natRepr (pairs.length * ss.length))) "Version" "2")
        = _
    rw [hset]

theorem entrySel_num (x : String) : entrySel ("NumberOfEntries", x) = none := by
  have h1 : dropPre ("File".data) ("NumberOfEntries" : String).data = none := by
    decide
  have h2 : dropPre ("Title".data) ("NumberOfEntries" : String).data = none := by
    decide
  have h3 : dropPre ("Length".data) ("NumberOfEntries" : String).data
      = none := by decide
  simp [entrySel, h1, h2, h3]

theorem entrySel_ver (x : String) : entrySel ("Version", x) = none := by
  have h1 : dropPre ("File".data) ("Version" : String).data = none := by decide
  have h2 : dropPre ("Title".data) ("Version" : String).data = none := by decide
  have h3 : dropPre ("Length".data) ("Version" : String).data = none := by
    decide
  simp [entrySel, h1, h2, h3]

theorem fileIdxData_footer (E : List (String × String)) (x y : String) :
    fileIdxData (E ++ [("NumberOfEntries", x), ("Version", y)])
      = fileIdxData E := by
  rw [fileIdxData, List.filterMap_append]
  have h1 : dropPre ("File".data) ("NumberOfEntries" : String).data = none := by
    decide
  have h2 : dropPre ("File".data) ("Version" : String).data = none := by decide
  simp [List.filterMap_cons, h1, h2, fileIdxData]

theorem titleIdxData_footer (E : List (String × String)) (x y : String) :
    titleIdxData (E ++ [("NumberOfEntries", x), ("Version", y)])
      = titleIdxData E := by
  rw [titleIdxData, List.filterMap_append]
  have h1 : dropPre ("Title".data) ("NumberOfEntries" : String).data = none := by
    decide
  have h2 : dropPre ("Title".data) ("Version" : String).data = none := by decide
  simp [List.filterMap_cons, h1, h2, titleIdxData]

theorem lengthIdxData_footer (E : List (String × String)) (x y : String) :
    lengthIdxData (E ++ [("NumberOfEntries", x), ("Version", y)])
      = lengthIdxData E := by
  rw [lengthIdxData, List.filterMap_append]
  have h1 : dropPre ("Length".data) ("NumberOfEntries" : String).data
      = none := by decide
  have h2 : dropPre ("Length".data) ("Version" : String).data = none := by
    decide
  simp [List.filterMap_cons, h1, h2, lengthIdxData]

theorem entryIdxData_footer (E : List (String × String)) (x y : String) :
    entryIdxData (E ++ [("NumberOfEntries", x), ("Version", y)])
      = entryIdxData E := by
  rw [entryIdxData, List.filterMap_append]
  simp [List.filterMap_cons, entrySel_num, entrySel_ver, entryIdxData]

theorem sapp_empty (s : String) : s ++ "" = s := by
  apply sext
  simp [sdata_append]

theorem escNl_two : escNl "2" = "2" := by decide

theorem titleIdxData_channelEntries :
    ∀ (pairs : List (String × String)) (a q : String) (ss : List String)
      (c : Nat),
      titleIdxData (channelEntries a q ss c pairs)
        = (idxFrom c (pairs.length * ss.length)).map
            (fun i => (natRepr i).data) := by
  intro pairs
  induction pairs with
  | nil => intro a q ss c; simp [channelEntries, titleIdxData, idxFrom]
  | cons p rest ih =>
    intro a q ss c
    obtain ⟨k, t⟩ := p
    show titleIdxData (entryBlock a q k t c ss ++ _) = _
    rw [titleIdxData, List.filterMap_append]
    have h1 : (rest.length + 1) * ss.length
        = ss.length + rest.length * ss.length := by ring
    simp only [List.length_cons, h1, idxFrom_add, List.map_append]
    congr 1
    · exact titleIdxData_entryBlock ss a q k t c
    · exact ih a q ss (c + ss.length)

theorem lengthIdxData_channelEntries :
    ∀ (pairs : List (String × String)) (a q : String) (ss : List String)
      (c : Nat),
      lengthIdxData (channelEntries a q ss c pairs)
        = (idxFrom c (pairs.length * ss.length)).map
            (fun i => (natRepr i).data) := by
  intro pairs
  induction pairs with
  | nil => intro a q ss c; simp [channelEntries, lengthIdxData, idxFrom]
  | cons p rest ih =>
    intro a q ss c
    obtain ⟨k, t⟩ := p
    show lengthIdxData (entryBlock a q k t c ss ++ _) = _
    rw [lengthIdxData, List.filterMap_append]
    have h1 : (rest.length + 1) * ss.length
        = ss.length + rest.length * ss.length := by ring
    simp only [List.length_cons, h1, idxFrom_add, List.map_append]
    congr 1
    · exact lengthIdxData_entryBlock ss a q k t c
    · exact ih a q ss (c + ss.length)

theorem entryBlock_length :
    ∀ (hosts : List String) (a q ck ct : String) (c : Nat),
      (entryBlock a q ck ct c hosts).length = 3 * hosts.length := by
  intro hosts
  induction hosts with
  | nil => intro a q ck ct c; rfl
  | cons h hs ih =>
    intro a q ck ct c
    simp only [entryBlock, List.length_cons, ih a q ck ct (c + 1)]
    ring

theorem write_build_fst (a : String) (ss : List String) (q : String)
    (pairs : List (String × String)) :
    (PlaylistBuilder.write (buildFromList a ss q pairs)).1
      = { apiKey := a, servers := ss, quality := q,
          chanCount := pairs.length * ss.length,
          ini := channelEntries a q ss 0 pairs
            ++ [("NumberOfEntries", natRepr (pairs.length * ss.length)),
                ("Version", "2")] } := by
  rw [buildFromList_eq]
  have hE : ∀ kv ∈ channelEntries a q ss 0 pairs,
      entryKey (pairs.length * ss.length) kv.1 := by
    intro kv hkv
    have := channelEntries_keys pairs a q ss 0 kv hkv
    rwa [Nat.zero_add] at this
  show PlaylistBuilder.mk a ss q _
      (iniSet (iniSet (channelEntries a q ss 0 pairs) "NumberOfEntries"
        (natRepr (pairs.length * ss.length))) "Version" "2") = _
  rw [footer_sets _ _ hE]

/-! ## Claims -/

/-- C1: for every builder constructed with an access key, server list and
quality suffix — in any state reachable through its calls (`append`,
`zero_list`, `write`) — a call `append(chanKey, chanText)` records, for
each host in `servers` in list order, one entry whose `File` URL is exactly
`http://{host}.di.fm:80/{chanKey}{quality}?{apiKey}` (all parts
concatenated verbatim, no escaping), whose `Title` is `chanText` verbatim,
and whose `Length` marker is the literal string `-1`: the stored section
grows by exactly `entryBlock`, which spells those options per host. -/
theorem claim_C1_append_records (a : String) (ss : List String) (q : String)
    (ops : List BOp) (ck ct : String) :
    ((runOps (PlaylistBuilder.init a ss q) ops).append ck ct).ini
      = (runOps (PlaylistBuilder.init a ss q) ops).ini
        ++ entryBlock a q ck ct
            (runOps (PlaylistBuilder.init a ss q) ops).chanCount ss := by
  have hg := goodIni_runOps ops (PlaylistBuilder.init a ss q) (goodIni_nil 0)
  have hf := runOps_fields ops (PlaylistBuilder.init a ss q)
  rw [append_eq _ ck ct hg, hf.1, hf.2.1, hf.2.2]
  rfl

/-- C2: entry indices are 1-based, contiguous and strictly increasing
across a whole sequence of `append` calls without an intervening reset:
the `File<i>` keys of a builder that appended `pairs` over `servers`
carry, in stored order, exactly the decimal indices
`1, 2, ..., pairs.length * servers.length`, continuing across calls and
never restarting or reusing an index (so two channels over one server
occupy indices 1 and 2). -/
theorem claim_C2_indices (a : String) (ss : List String) (q : String)
    (pairs : List (String × String)) :
    fileIdxData (buildFromList a ss q pairs).ini
      = (idxFrom 0 (pairs.length * ss.length)).map
          (fun i => (natRepr i).data) := by
  rw [buildFromList_eq]
  exact fileIdxData_channelEntries pairs a q ss 0

/-- C3: after any sequence of `append`/`reset` calls, the written output's
`NumberOfEntries` value is the decimal of the running count taken at write
time, and it equals the number of `File`/`Title`/`Length` triples present
in the written section (counted here as the number of `File` keys, of
`Title` keys and of `Length` keys, which all coincide with the running
count). -/
theorem claim_C3_footer_count (a : String) (ss : List String) (q : String)
    (ops : List BOp) (hw : BOp.write ∉ ops) :
    lookupVal
        ((PlaylistBuilder.write (runOps (PlaylistBuilder.init a ss q) ops)).1).ini
        "NumberOfEntries"
      = some (natRepr (runOps (PlaylistBuilder.init a ss q) ops).chanCount)
    ∧ (fileIdxData
        ((PlaylistBuilder.write (runOps (PlaylistBuilder.init a ss q) ops)).1).ini).length
      = (runOps (PlaylistBuilder.init a ss q) ops).chanCount
    ∧ (titleIdxData
        ((PlaylistBuilder.write (runOps (PlaylistBuilder.init a ss q) ops)).1).ini).length
      = (runOps (PlaylistBuilder.init a ss q) ops).chanCount
    ∧ (lengthIdxData
        ((PlaylistBuilder.write (runOps (PlaylistBuilder.init a ss q) ops)).1).ini).length
      = (runOps (PlaylistBuilder.init a ss q) ops).chanCount := by
  rw [runOps_from_init a ss q ops hw]
  rw [(write_build a ss q (tailAppends ops)).1, buildFromList_eq]
  have hE : ∀ kv ∈ channelEntries a q ss 0 (tailAppends ops),
      kv.1 ≠ "NumberOfEntries" := by
    intro kv hkv
    exact entryKey_ne_numKey (channelEntries_keys (tailAppends ops) a q ss 0 kv hkv)
  refine ⟨?_, ?_, ?_, ?_⟩
  · rw [lookupVal_skip _ _ _ hE]
    simp [lookupVal]
  · rw [fileIdxData_footer, fileIdxData_channelEntries]
    simp [idxFrom_length]
  · rw [titleIdxData_footer, titleIdxData_channelEntries]
    simp [idxFrom_length]
  · rw [lengthIdxData_footer, lengthIdxData_channelEntries]
    simp [idxFrom_length]

/-- C3 witness: a concrete append/reset/append sequence. -/
theorem claim_C3_witness :
    BOp.write ∉ [BOp.app "a" "A", BOp.reset, BOp.app "b" "B"]
      ∧ (lookupVal
          ((PlaylistBuilder.write (runOps (PlaylistBuilder.init "k" ["s1"] "")
            [BOp.app "a" "A", BOp.reset, BOp.app "b" "B"])).1).ini
          "NumberOfEntries"
        = some (natRepr (runOps (PlaylistBuilder.init "k" ["s1"] "")
            [BOp.app "a" "A", BOp.reset, BOp.app "b" "B"]).chanCount)
      ∧ (fileIdxData
          ((PlaylistBuilder.write (runOps (PlaylistBuilder.init "k" ["s1"] "")
            [BOp.app "a" "A", BOp.reset, BOp.app "b" "B"])).1).ini).length
        = (runOps (PlaylistBuilder.init "k" ["s1"] "")
            [BOp.app "a" "A", BOp.reset, BOp.app "b" "B"]).chanCount
      ∧ (titleIdxData
          ((PlaylistBuilder.write (runOps (PlaylistBuilder.init "k" ["s1"] "")
            [BOp.app "a" "A", BOp.reset, BOp.app "b" "B"])).1).ini).length
        = (runOps (PlaylistBuilder.init "k" ["s1"] "")
            [BOp.app "a" "A", BOp.reset, BOp.app "b" "B"]).chanCount
      ∧ (lengthIdxData
          ((PlaylistBuilder.write (runOps (PlaylistBuilder.init "k" ["s1"] "")
            [BOp.app "a" "A", BOp.reset, BOp.app "b" "B"])).1).ini).length
        = (runOps (PlaylistBuilder.init "k" ["s1"] "")
            [BOp.app "a" "A", BOp.reset, BOp.app "b" "B"]).chanCount) :=
  ⟨by decide,
    claim_C3_footer_count "k" ["s1"] "" [BOp.app "a" "A", BOp.reset,
      BOp.app "b" "B"] (by decide)⟩

/-- C4 counterexample: an `<option>` element with no `value` attribute and
no text content makes the enumeration raise `AttributeError`
(`option.text` is `None` and `.strip()` is evaluated on it before any
check), so no diagnostic is emitted and the elements after it are never
visited — the enumeration does abort the whole sequence on this malformed
entry, contrary to the claim. -/
theorem claim_C4_counterexample :
    (enumChannels true
        [{ attrs := [], text := none },
         { attrs := [("value", "trance")], text := some "Trance" }]).crash
      ≠ none
    ∧ (enumChannels true
        [{ attrs := [], text := none },
         { attrs := [("value", "trance")], text := some "Trance" }]).errs
      = []
    ∧ (enumChannels true
        [{ attrs := [], text := none },
         { attrs := [("value", "trance")], text := some "Trance" }]).pairs
      = [] := by
  refine ⟨by decide, by decide, by decide⟩

/-- C4 as amended: for every input document in which each option element
has text content present (Python `option.text` is not `None`), the channel
enumeration yields, in document order, the pair (value, trimmed text) for
each selectable option; an element whose value attribute equals the empty
string is skipped silently; an element whose value attribute is absent
causes one diagnostic on the error stream listing all attributes of that
element and is then skipped, with processing continuing — the enumeration
never aborts. -/
theorem claim_C4_enumeration (opts : List OptionElem)
    (h : ∀ o ∈ opts, o.text ≠ none) :
    enumChannels true opts
      = { errs := (specChannelScan opts).1,
          pairs := (specChannelScan opts).2, crash := none } :=
  enumChannels_spec opts h

/-- C4 witness: the spec's scenario — a good option, an empty placeholder,
and an option with no `value` attribute. -/
theorem claim_C4_witness :
    (∀ o ∈ ([{ attrs := [("value", "trance")], text := some " Trance " },
              { attrs := [("value", "")], text := some "placeholder" },
              { attrs := [("class", "c")], text := some "Bad" }]
        : List OptionElem), o.text ≠ none)
      ∧ enumChannels true
          [{ attrs := [("value", "trance")], text := some " Trance " },
           { attrs := [("value", "")], text := some "placeholder" },
           { attrs := [("class", "c")], text := some "Bad" }]
        = { errs := ["Ignoring bad <option> tag, with attrs: class=\x27c\x27"],
            pairs := [("trance", "Trance")], crash := none } :=
  ⟨by decide, by
    rw [claim_C4_enumeration _ (by decide)]
    decide⟩

/-- C5 counterexample: a builder state reached by append, write, append
serializes with the two footer keys in the middle — the entry lines of
the second append come after `NumberOfEntries` and `Version` — so the
claim quantified over every builder state (entry lines followed by the
footer keys) is false. -/
theorem claim_C5_counterexample :
    (PlaylistBuilder.write
        (((PlaylistBuilder.write
            ((PlaylistBuilder.init "k" ["s1"] "").append "a" "A")).1).append
          "b" "B")).2
      = "[playlist]\nFile1=http://s1.di.fm:80/a?k\nTitle1=A\nLength1=-1\nNumberOfEntries=2\nVersion=2\nFile2=http://s1.di.fm:80/b?k\nTitle2=B\nLength2=-1\n\n"
    ∧ (PlaylistBuilder.write
        (((PlaylistBuilder.write
            ((PlaylistBuilder.init "k" ["s1"] "").append "a" "A")).1).append
          "b" "B")).2
      ≠ "[playlist]\nFile1=http://s1.di.fm:80/a?k\nTitle1=A\nLength1=-1\nFile2=http://s1.di.fm:80/b?k\nTitle2=B\nLength2=-1\nNumberOfEntries=2\nVersion=2\n\n" := by
  refine ⟨by decide, by decide⟩

/-- C5 as amended: for every builder state reachable by `append` calls
from a fresh (or freshly reset) builder with no intervening write, the
serialized output is exactly the `[playlist]` header line, the entry
lines in ascending index order (one `key=value` line per stored option,
keys case-preserved as `File<i>`/`Title<i>`/`Length<i>`, delimiter `=`
with no surrounding whitespace), then the footer lines
`NumberOfEntries=<count>` and `Version=2`, and the section's trailing
blank line. -/
theorem claim_C5_serialized_shape (a : String) (ss : List String)
    (q : String) (pairs : List (String × String)) :
    (PlaylistBuilder.write (buildFromList a ss q pairs)).2
      = "[playlist]\n"
        ++ concatStrs ((channelEntries a q ss 0 pairs).map lineOf)
        ++ "NumberOfEntries=" ++ natRepr (pairs.length * ss.length)
        ++ "\nVersion=2\n\n" := by
  rw [(write_build a ss q pairs).2, serializeIni, List.map_append,
    concatStrs_append]
  apply sext
  have h1 : ("NumberOfEntries=" : String).data
      = ("NumberOfEntries" : String).data ++ ("=" : String).data := by decide
  have h2 : ("\nVersion=2\n\n" : String).data
      = ("\n" : String).data ++ (("Version" : String).data
        ++ (("=" : String).data ++ (("2" : String).data
          ++ (("\n" : String).data ++ ("\n" : String).data)))) := by decide
  have h0 : ("" : String).data = [] := rfl
  simp only [sdata_append, List.map_cons, List.map_nil, concatStrs, lineOf,
    escNl_natRepr, escNl_two, h1, h2, h0, List.append_assoc, List.nil_append,
    List.append_nil, List.cons_append]

/-- C6 counterexample: with `-m 0` the code treats the cap as unset
(Python falsiness of `args.max`), so the default two-mirror list survives
untruncated, while the claim (truncation to at most `max = 0` entries)
demands an empty effective list. -/
theorem claim_C6_counterexample :
    resolveServers none (some 0) none = ["prem1", "prem4"]
      ∧ ¬(resolveServers none (some 0) none).length ≤ 0 := by
  refine ⟨by decide, by decide⟩

/-- C6 as amended: the effective server list is the resolved
(post-default-substitution) configured list truncated to at most `max`
entries when `max` is a positive integer; when `max` is unset or `0`
(falsy) the cap defaults to 1 in single-file mode and to the full resolved
list length in per-channel mode; a negative `max` drops the last `|max|`
entries (Python slice semantics).  `specEffectiveServers` is modelled from
that amended wording and shown equal to the code's resolution. -/
theorem claim_C6_effective_servers (sv : Option (List String))
    (mx : Option Int) (fl : Option String) :
    resolveServers sv mx fl = specEffectiveServers sv mx fl :=
  resolveServers_eq_spec sv mx fl

/-- C7 counterexample: one append over one server followed by serialize
yields 3 entry lines whose indices are `1, 1, 1` (each index decorates a
`File`/`Title`/`Length` triple), not the contiguous ascending run
`1..3×|servers| = 1..3` the claim asserts. -/
theorem claim_C7_counterexample :
    entryIdxData ((PlaylistBuilder.write
        ((PlaylistBuilder.init "k" ["s1"] "").append "trance" "Trance")).1).ini
      = [['1'], ['1'], ['1']]
    ∧ entryIdxData ((PlaylistBuilder.write
        ((PlaylistBuilder.init "k" ["s1"] "").append "trance" "Trance")).1).ini
      ≠ (idxFrom 0 (3 * (["s1"] : List String).length)).map
          (fun i => (natRepr i).data) := by
  refine ⟨by decide, by decide⟩

/-- C7 as amended: for all non-empty channel keys and non-empty server
lists, a single append followed by serialize produces exactly
`3 × |servers|` entry lines plus 2 footer lines, the entry indices running
`1..|servers|` contiguous and ascending, each index on a consecutive
`File`/`Title`/`Length` triple of lines. -/
theorem claim_C7_single_append (a : String) (ss : List String) (q : String)
    (ck ct : String) (hk : ck ≠ "") (hs : ss ≠ []) :
    ((PlaylistBuilder.write
        ((PlaylistBuilder.init a ss q).append ck ct)).1).ini.length
      = 3 * ss.length + 2
    ∧ entryIdxData ((PlaylistBuilder.write
        ((PlaylistBuilder.init a ss q).append ck ct)).1).ini
      = (idxFrom 0 ss.length).flatMap
          (fun i => [(natRepr i).data, (natRepr i).data, (natRepr i).data]) := by
  have hb : (PlaylistBuilder.init a ss q).append ck ct
      = buildFromList a ss q [(ck, ct)] := rfl
  rw [hb, (write_build a ss q [(ck, ct)]).1]
  have hE : channelEntries a q ss 0 [(ck, ct)] = entryBlock a q ck ct 0 ss := by
    simp [channelEntries]
  constructor
  · rw [List.length_append, hE, entryBlock_length]
    rfl
  · rw [entryIdxData_footer, hE]
    exact entryIdxData_entryBlock ss a q ck ct 0

/-- C7 witness: two servers, a non-empty channel key. -/
theorem claim_C7_witness :
    ("trance" : String) ≠ ""
      ∧ (["s1", "s2"] : List String) ≠ []
      ∧ (((PlaylistBuilder.write
            ((PlaylistBuilder.init "k" ["s1", "s2"] "").append "trance"
              "T")).1).ini.length
          = 3 * (["s1", "s2"] : List String).length + 2
        ∧ entryIdxData ((PlaylistBuilder.write
            ((PlaylistBuilder.init "k" ["s1", "s2"] "").append "trance"
              "T")).1).ini
          = (idxFrom 0 (["s1", "s2"] : List String).length).flatMap
              (fun i => [(natRepr i).data, (natRepr i).data,
                (natRepr i).data])) :=
  ⟨by decide, by decide,
    claim_C7_single_append "k" ["s1", "s2"] "" "trance" "T" (by decide)
      (by decide)⟩

/-- C8: on every builder state — however populated — `zero_list` resets
the running count to 0 and discards all stored entries, a following write
serializes to a playlist with `NumberOfEntries=0` and no entry lines, and
`zero_list` is idempotent (callable repeatedly). -/
theorem claim_C8_reset (b : PlaylistBuilder) :
    b.zero_list.chanCount = 0
    ∧ b.zero_list.ini = []
    ∧ (PlaylistBuilder.write b.zero_list).2
      = "[playlist]\nNumberOfEntries=0\nVersion=2\n\n"
    ∧ b.zero_list.zero_list = b.zero_list := by
  refine ⟨rfl, rfl, ?_, rfl⟩
  show serializeIni (iniSet (iniSet [] "NumberOfEntries" (natRepr 0))
      "Version" "2") = _
  rfl

/-- C8 witness: a populated builder. -/
theorem claim_C8_witness :
    (buildFromList "k" ["s1"] "" [("a", "A")]).zero_list.chanCount = 0
    ∧ (buildFromList "k" ["s1"] "" [("a", "A")]).zero_list.ini = []
    ∧ (PlaylistBuilder.write
        (buildFromList "k" ["s1"] "" [("a", "A")]).zero_list).2
      = "[playlist]\nNumberOfEntries=0\nVersion=2\n\n"
    ∧ (buildFromList "k" ["s1"] "" [("a", "A")]).zero_list.zero_list
      = (buildFromList "k" ["s1"] "" [("a", "A")]).zero_list :=
  claim_C8_reset (buildFromList "k" ["s1"] "" [("a", "A")])

/-- C9 counterexample: a display name containing a newline is written by
the serializer as a continuation line (`\n` becomes `\n` + tab), so
reading the text back as generic `key=value` pairs recovers `Title1=a`,
not the appended title `a\nb` — the round-trip fails. -/
theorem claim_C9_counterexample :
    parsePLS (PlaylistBuilder.write
        ((PlaylistBuilder.init "k" ["s1"] "").append "trance" "a\nb")).2
      = [("File1", "http://s1.di.fm:80/trance?k"), ("Title1", "a"),
         ("Length1", "-1"), ("NumberOfEntries", "1"), ("Version", "2")]
    ∧ ("Title1", ("a\nb" : String)) ∉ parsePLS (PlaylistBuilder.write
        ((PlaylistBuilder.init "k" ["s1"] "").append "trance" "a\nb")).2 := by
  refine ⟨by decide, by decide⟩

/-- C9 as amended: when the access key, quality suffix, server names and
all appended channel keys and display names contain no newline character,
parsing the serialized PLS text back as generic `key=value` pairs recovers
exactly the entries appended — the same URLs, titles and `-1` length
markers, in append order — followed by the two footer pairs. -/
theorem claim_C9_roundtrip (a : String) (ss : List String) (q : String)
    (pairs : List (String × String)) (ha : noNl a) (hq : noNl q)
    (hss : ∀ h ∈ ss, noNl h) (hp : ∀ p ∈ pairs, noNl p.1 ∧ noNl p.2) :
    parsePLS (PlaylistBuilder.write (buildFromList a ss q pairs)).2
      = channelEntries a q ss 0 pairs
        ++ [("NumberOfEntries", natRepr (pairs.length * ss.length)),
            ("Version", "2")] := by
  rw [(write_build a ss q pairs).2]
  apply parse_serializeIni
  intro kv hkv
  rcases List.mem_append.mp hkv with hm | hm
  · exact channelEntries_kv_props pairs a q ss 0 ha hq hss hp kv hm
  · simp at hm
    rcases hm with hm | hm
    · rw [hm]
      refine ⟨?_, ?_, ?_⟩
      · show noNl ("NumberOfEntries" : String)
        decide
      · show noNl (natRepr (pairs.length * ss.length))
        exact natRepr_no_nl
      · show '=' ∉ ("NumberOfEntries" : String).data
        decide
    · rw [hm]
      refine ⟨?_, ?_, ?_⟩
      · show noNl ("Version" : String)
        decide
      · show noNl ("2" : String)
        decide
      · show '=' ∉ ("Version" : String).data
        decide

/-- C9 witness: one newline-free channel over one server. -/
theorem claim_C9_witness :
    noNl "k" ∧ noNl ""
      ∧ (∀ h ∈ (["s1"] : List String), noNl h)
      ∧ (∀ p ∈ ([("trance", "Trance")] : List (String × String)),
          noNl p.1 ∧ noNl p.2)
      ∧ parsePLS (PlaylistBuilder.write
          (buildFromList "k" ["s1"] "" [("trance", "Trance")])).2
        = channelEntries "k" "" ["s1"] 0 [("trance", "Trance")]
          ++ [("NumberOfEntries",
                natRepr (([("trance", "Trance")]
                  : List (String × String)).length
                  * (["s1"] : List String).length)),
              ("Version", "2")] :=
  ⟨by decide, by decide, by decide, by decide,
    claim_C9_roundtrip "k" ["s1"] "" [("trance", "Trance")] (by decide)
      (by decide) (by decide) (by decide)⟩

/-- C10: `write` mutates the builder — it inserts the `NumberOfEntries`
and `Version` keys into the stored section — so appending after a write
(without an intervening reset) places the new `File`/`Title`/`Length`
options after those footer keys, and the next write updates the two footer
values in place, emitting the newly appended entry lines after the
`NumberOfEntries` and `Version` lines rather than before the footer. -/
theorem claim_C10_write_mutates (a : String) (ss : List String) (q : String)
    (pairs : List (String × String)) (ck ct : String) :
    ((PlaylistBuilder.write (buildFromList a ss q pairs)).1).ini
      = channelEntries a q ss 0 pairs
        ++ [("NumberOfEntries", natRepr (pairs.length * ss.length)),
            ("Version", "2")]
    ∧ ((PlaylistBuilder.write
          (((PlaylistBuilder.write (buildFromList a ss q pairs)).1).append
            ck ct)).1).ini
      = channelEntries a q ss 0 pairs
        ++ [("NumberOfEntries",
              natRepr (pairs.length * ss.length + ss.length)),
            ("Version", "2")]
        ++ entryBlock a q ck ct (pairs.length * ss.length) ss := by
  have hE : ∀ kv ∈ channelEntries a q ss 0 pairs,
      entryKey (pairs.length * ss.length) kv.1 := by
    intro kv hkv
    have := channelEntries_keys pairs a q ss 0 kv hkv
    rwa [Nat.zero_add] at this
  have hB : ∀ kv ∈ entryBlock a q ck ct (pairs.length * ss.length) ss,
      entryKey (pairs.length * ss.length + ss.length) kv.1 :=
    entryBlock_keys ss a q ck ct (pairs.length * ss.length)
  refine ⟨(write_build a ss q pairs).1, ?_⟩
  rw [write_build_fst a ss q pairs]
  have hg1 : goodIni (pairs.length * ss.length)
      (channelEntries a q ss 0 pairs
        ++ [("NumberOfEntries", natRepr (pairs.length * ss.length)),
            ("Version", "2")]) := by
    intro kv hkv
    rcases List.mem_append.mp hkv with hm | hm
    · exact Or.inl (hE kv hm)
    · simp at hm
      rcases hm with hm | hm
      · rw [hm]
        exact Or.inr (Or.inl rfl)
      · rw [hm]
        exact Or.inr (Or.inr rfl)
  rw [append_eq _ ck ct hg1]
  show iniSet (iniSet ((channelEntries a q ss 0 pairs
      ++ [("NumberOfEntries", natRepr (pairs.length * ss.length)),
          ("Version", "2")])
      ++ entryBlock a q ck ct (pairs.length * ss.length) ss)
      "NumberOfEntries" (natRepr (pairs.length * ss.length + ss.length)))
      "Version" "2" = _
  have hshape1 : (channelEntries a q ss 0 pairs
      ++ [("NumberOfEntries", natRepr (pairs.length * ss.length)),
          ("Version", "2")])
      ++ entryBlock a q ck ct (pairs.length * ss.length) ss
      = channelEntries a q ss 0 pairs
        ++ ("NumberOfEntries", natRepr (pairs.length * ss.length))
          :: (("Version", "2")
            :: entryBlock a q ck ct (pairs.length * ss.length) ss) := by
    simp [List.append_assoc]
  rw [hshape1]
  rw [iniSet_update_mid (channelEntries a q ss 0 pairs) _ _ _ _
    (fun kv hkv => entryKey_ne_numKey (hE kv hkv)) ?hbn]
  case hbn =>
    intro kv hkv
    rcases List.mem_cons.mp hkv with hm | hm
    · rw [hm]
      exact (by decide : ("Version" : String) ≠ "NumberOfEntries")
    · exact entryKey_ne_numKey (hB kv hm)
  have hshape2 : channelEntries a q ss 0 pairs
      ++ ("NumberOfEntries", natRepr (pairs.length * ss.length + ss.length))
        :: (("Version", "2")
          :: entryBlock a q ck ct (pairs.length * ss.length) ss)
      = (channelEntries a q ss 0 pairs
          ++ [("NumberOfEntries",
                natRepr (pairs.length * ss.length + ss.length))])
        ++ ("Version", "2")
          :: entryBlock a q ck ct (pairs.length * ss.length) ss := by
    simp [List.append_assoc]
  rw [hshape2]
  rw [iniSet_update_mid _ _ _ _ _ ?han
    (fun kv hkv => entryKey_ne_verKey (hB kv hkv))]
  case han =>
    intro kv hkv
    rcases List.mem_append.mp hkv with hm | hm
    · exact entryKey_ne_verKey (hE kv hm)
    · simp at hm
      rw [hm]
      exact (by decide : ("NumberOfEntries" : String) ≠ "Version")
  simp [List.append_assoc]

end SplitPls
